import Mathlib

/-!
Verification of the batch-RPC client core of RealMikeChong/10x-chat.

Shallow embedding of:
  * the JSON value model and the parts of the JavaScript runtime the code
    leans on (`JSON.parse`, `JSON.stringify`, `encodeURIComponent`,
    `Number(...)`, `parseInt`, `String.prototype.trim` / `includes`);
  * the wire codec (`src/notebooklm/rpc/decoder.ts`, encoder);
  * the error taxonomy (`errors.ts`);
  * the transport `ClientCore.rpcCall` / `tryRefreshAndRetry` (sequential
    model, plus an interleaving model for the single-flight coordinator);
  * the conversation cache and the completion poller.

Machine integers: all JS numbers that the claims touch are exact small
integers or simple decimals, so they are modelled as exact rationals
(`JNum`; no float rounding is observable in any claim).  JS string `.slice` counts UTF-16
units while `String.take` counts characters; no claim distinguishes them.
-/

set_option maxRecDepth 2000

namespace TenXChat

/-- Exact rational numbers in canonical form (every value is produced by
the normalising operations below).  Mathlib's `ℚ` is not used because its
arithmetic is `irreducible` and concrete runs of the model must evaluate
inside the kernel. -/
structure JNum where
  num : ℤ
  den : ℕ
deriving DecidableEq

/-- Normalised fraction. -/
def jnorm (n : ℤ) (d : ℕ) : JNum :=
  let g := Nat.gcd n.natAbs d
  if g = 0 then ⟨0, 1⟩ else ⟨n / (g : ℤ), d / g⟩

/-- Integer as a `JNum`. -/
def jint (n : ℤ) : JNum := ⟨n, 1⟩

def JNum.add (a b : JNum) : JNum :=
  jnorm (a.num * (b.den : ℤ) + b.num * (a.den : ℤ)) (a.den * b.den)

def JNum.sub (a b : JNum) : JNum :=
  jnorm (a.num * (b.den : ℤ) - b.num * (a.den : ℤ)) (a.den * b.den)

def JNum.mul (a b : JNum) : JNum :=
  jnorm (a.num * b.num) (a.den * b.den)

def JNum.neg (a : JNum) : JNum := ⟨-a.num, a.den⟩

def JNum.leB (a b : JNum) : Bool :=
  a.num * (b.den : ℤ) ≤ b.num * (a.den : ℤ)

def JNum.ltB (a b : JNum) : Bool :=
  a.num * (b.den : ℤ) < b.num * (a.den : ℤ)

/-- Model of `Number.isInteger`. -/
def JNum.isInt (a : JNum) : Bool := a.den = 1

/-- Model of `Math.floor`. -/
def JNum.floor (a : JNum) : ℤ := Int.fdiv a.num a.den

/-- Model of `Math.min`. -/
def JNum.minJ (a b : JNum) : JNum := if JNum.leB a b then a else b

/-- Power `10^e` for an integer exponent. -/
def jpow10 (e : ℤ) : JNum :=
  if 0 ≤ e then ⟨((10 ^ e.toNat : ℕ) : ℤ), 1⟩ else ⟨1, 10 ^ (-e).toNat⟩

/-- JSON value tree (`unknown` on the TS side).  Numbers are modelled as
exact rationals. -/
inductive Json where
  | null : Json
  | bool (b : Bool) : Json
  | num (q : JNum) : Json
  | str (s : String) : Json
  | arr (xs : List Json) : Json
  | obj (fields : List (String × Json)) : Json

/-- Constructor discriminator, used to dismiss cross-constructor equalities. -/
def Json.ctorIdx : Json → ℕ
  | .null => 0
  | .bool _ => 1
  | .num _ => 2
  | .str _ => 3
  | .arr _ => 4
  | .obj _ => 5

mutual

def Json.decEq : (a b : Json) → Decidable (a = b)
  | .null, .null => .isTrue rfl
  | .bool a, .bool b =>
    if h : a = b then .isTrue (h ▸ rfl) else .isFalse (fun he => h (Json.bool.inj he))
  | .num a, .num b =>
    if h : a = b then .isTrue (h ▸ rfl) else .isFalse (fun he => h (Json.num.inj he))
  | .str a, .str b =>
    if h : a = b then .isTrue (h ▸ rfl) else .isFalse (fun he => h (Json.str.inj he))
  | .arr xs, .arr ys =>
    match Json.decEqList xs ys with
    | .isTrue h => .isTrue (h ▸ rfl)
    | .isFalse h => .isFalse (fun he => h (Json.arr.inj he))
  | .obj xs, .obj ys =>
    match Json.decEqFields xs ys with
    | .isTrue h => .isTrue (h ▸ rfl)
    | .isFalse h => .isFalse (fun he => h (Json.obj.inj he))
  | .null, .bool _ => .isFalse (fun h => Json.noConfusion h)
  | .null, .num _ => .isFalse (fun h => Json.noConfusion h)
  | .null, .str _ => .isFalse (fun h => Json.noConfusion h)
  | .null, .arr _ => .isFalse (fun h => Json.noConfusion h)
  | .null, .obj _ => .isFalse (fun h => Json.noConfusion h)
  | .bool _, .null => .isFalse (fun h => Json.noConfusion h)
  | .bool _, .num _ => .isFalse (fun h => Json.noConfusion h)
  | .bool _, .str _ => .isFalse (fun h => Json.noConfusion h)
  | .bool _, .arr _ => .isFalse (fun h => Json.noConfusion h)
  | .bool _, .obj _ => .isFalse (fun h => Json.noConfusion h)
  | .num _, .null => .isFalse (fun h => Json.noConfusion h)
  | .num _, .bool _ => .isFalse (fun h => Json.noConfusion h)
  | .num _, .str _ => .isFalse (fun h => Json.noConfusion h)
  | .num _, .arr _ => .isFalse (fun h => Json.noConfusion h)
  | .num _, .obj _ => .isFalse (fun h => Json.noConfusion h)
  | .str _, .null => .isFalse (fun h => Json.noConfusion h)
  | .str _, .bool _ => .isFalse (fun h => Json.noConfusion h)
  | .str _, .num _ => .isFalse (fun h => Json.noConfusion h)
  | .str _, .arr _ => .isFalse (fun h => Json.noConfusion h)
  | .str _, .obj _ => .isFalse (fun h => Json.noConfusion h)
  | .arr _, .null => .isFalse (fun h => Json.noConfusion h)
  | .arr _, .bool _ => .isFalse (fun h => Json.noConfusion h)
  | .arr _, .num _ => .isFalse (fun h => Json.noConfusion h)
  | .arr _, .str _ => .isFalse (fun h => Json.noConfusion h)
  | .arr _, .obj _ => .isFalse (fun h => Json.noConfusion h)
  | .obj _, .null => .isFalse (fun h => Json.noConfusion h)
  | .obj _, .bool _ => .isFalse (fun h => Json.noConfusion h)
  | .obj _, .num _ => .isFalse (fun h => Json.noConfusion h)
  | .obj _, .str _ => .isFalse (fun h => Json.noConfusion h)
  | .obj _, .arr _ => .isFalse (fun h => Json.noConfusion h)

def Json.decEqList : (a b : List Json) → Decidable (a = b)
  | [], [] => .isTrue rfl
  | [], _ :: _ => .isFalse (fun h => List.noConfusion h)
  | _ :: _, [] => .isFalse (fun h => List.noConfusion h)
  | x :: xs, y :: ys =>
    match Json.decEq x y with
    | .isTrue h1 =>
      match Json.decEqList xs ys with
      | .isTrue h2 => .isTrue (by rw [h1, h2])
      | .isFalse h2 => .isFalse (fun he => h2 (List.tail_eq_of_cons_eq he))
    | .isFalse h1 => .isFalse (fun he => h1 (List.head_eq_of_cons_eq he))

def Json.decEqFields : (a b : List (String × Json)) → Decidable (a = b)
  | [], [] => .isTrue rfl
  | [], _ :: _ => .isFalse (fun h => List.noConfusion h)
  | _ :: _, [] => .isFalse (fun h => List.noConfusion h)
  | (s, x) :: xs, (t, y) :: ys =>
    if hs : s = t then
      match Json.decEq x y with
      | .isTrue h1 =>
        match Json.decEqFields xs ys with
        | .isTrue h2 => .isTrue (by rw [hs, h1, h2])
        | .isFalse h2 => .isFalse (fun he => h2 (List.tail_eq_of_cons_eq he))
      | .isFalse h1 =>
        .isFalse (fun he => h1 (congrArg Prod.snd (List.head_eq_of_cons_eq he)))
    else
      .isFalse (fun he => hs (congrArg Prod.fst (List.head_eq_of_cons_eq he)))

end

instance : DecidableEq Json := Json.decEq

/-- JS whitespace for `trim` (the common subset that can appear in the
protocol bodies). -/
def isJsWs (c : Char) : Bool :=
  c = ' ' || c = '\t' || c = '\n' || c = '\r' || c = Char.ofNat 11 || c = Char.ofNat 12

/-- Model of `String.prototype.trim`. -/
def jsTrim (s : String) : String :=
  String.mk ((s.data.dropWhile isJsWs).reverse.dropWhile isJsWs |>.reverse)

/-- Model of `String.prototype.slice(0, n)` (UTF-16 units approximated by
characters). -/
def jsSlice (s : String) (n : ℕ) : String :=
  String.mk (s.data.take n)

/-- Model of `String.prototype.includes` (substring test). -/
def jsIncludes (s sub : String) : Bool :=
  decide (sub.data <:+: s.data)

/-- Model of `String.prototype.toLowerCase` (ASCII part, which covers every pattern
the code compares against). -/
def jsToLower (s : String) : String :=
  String.mk (s.data.map Char.toLower)

/-- Lower-case hex digit. -/
def hexDigitLower (n : ℕ) : Char :=
  if n < 10 then Char.ofNat (48 + n) else Char.ofNat (87 + n)

/-- Upper-case hex digit. -/
def hexDigitUpper (n : ℕ) : Char :=
  if n < 10 then Char.ofNat (48 + n) else Char.ofNat (55 + n)

/-- First exponent `k ≤ 30` with `d ∣ 10^k`, if any. -/
def decExponent (d : ℕ) : Option ℕ :=
  (List.range 31).find? (fun k => 10 ^ k % d = 0)

/-- JS number-to-string conversion, exact on integers and on rationals with
a finite decimal expansion (the only numbers the code ever prints). -/
def qToJsStr (q : JNum) : String :=
  if q.den = 1 then toString q.num
  else
    match decExponent q.den with
    | some k =>
      let scaled := q.num.natAbs * (10 ^ k / q.den)
      let ds := Nat.toDigits 10 scaled
      let padded := List.replicate (k + 1 - ds.length) '0' ++ ds
      let ip := padded.take (padded.length - k)
      let fp := padded.drop (padded.length - k)
      (if q.num < 0 then "-" else "") ++ String.mk ip ++ "." ++ String.mk fp
    | none => toString q.num ++ "/" ++ toString q.den

/-- One character of `JSON.stringify`'s string escaping. -/
def escapeJsonChar (c : Char) : List Char :=
  if c = '"' then ['\\', '"']
  else if c = '\\' then ['\\', '\\']
  else if c = '\n' then ['\\', 'n']
  else if c = '\r' then ['\\', 'r']
  else if c = '\t' then ['\\', 't']
  else if c = Char.ofNat 8 then ['\\', 'b']
  else if c = Char.ofNat 12 then ['\\', 'f']
  else if c.toNat < 32 then
    ['\\', 'u', '0', '0', hexDigitLower (c.toNat / 16), hexDigitLower (c.toNat % 16)]
  else [c]

/-- Model of `JSON.stringify` of a string value. -/
def quoteJson (s : String) : String :=
  "\"" ++ String.mk (s.data.flatMap escapeJsonChar) ++ "\""

mutual

/-- Model of `JSON.stringify` (no indentation, as called by the code). -/
def Json.stringify : Json → String
  | .null => "null"
  | .bool b => if b then "true" else "false"
  | .num q => qToJsStr q
  | .str s => quoteJson s
  | .arr xs => "[" ++ Json.stringifyList xs ++ "]"
  | .obj fs => "\x7b" ++ Json.stringifyFields fs ++ "\x7d"

def Json.stringifyList : List Json → String
  | [] => ""
  | [x] => Json.stringify x
  | x :: y :: rest => Json.stringify x ++ "," ++ Json.stringifyList (y :: rest)

def Json.stringifyFields : List (String × Json) → String
  | [] => ""
  | [(k, v)] => quoteJson k ++ ":" ++ Json.stringify v
  | (k, v) :: f :: rest =>
    quoteJson k ++ ":" ++ Json.stringify v ++ "," ++ Json.stringifyFields (f :: rest)

end

/-- Characters `encodeURIComponent` leaves unescaped. -/
def isUriUnescaped (c : Char) : Bool :=
  (('A' ≤ c && c ≤ 'Z') || ('a' ≤ c && c ≤ 'z') || ('0' ≤ c && c ≤ '9')) ||
    (c = '-' || c = '_' || c = '.' || c = '!' || c = '~' || c = '*' || c = '\'' ||
      c = '(' || c = ')')

/-- UTF-8 bytes of a character. -/
def utf8Bytes (c : Char) : List ℕ :=
  let n := c.toNat
  if n < 128 then [n]
  else if n < 2048 then [192 + n / 64, 128 + n % 64]
  else if n < 65536 then [224 + n / 4096, 128 + n / 64 % 64, 128 + n % 64]
  else [240 + n / 262144, 128 + n / 4096 % 64, 128 + n / 64 % 64, 128 + n % 64]

/-- Model of `encodeURIComponent`. -/
def encodeURIComponent (s : String) : String :=
  String.mk <| s.data.flatMap fun c =>
    if isUriUnescaped c then [c]
    else (utf8Bytes c).flatMap fun b => ['%', hexDigitUpper (b / 16), hexDigitUpper (b % 16)]

/-- JSON grammar whitespace. -/
def isJsonWs (c : Char) : Bool :=
  c = ' ' || c = '\t' || c = '\n' || c = '\r'

def skipWs (cs : List Char) : List Char :=
  cs.dropWhile isJsonWs

def hexVal? (c : Char) : Option ℕ :=
  if '0' ≤ c && c ≤ '9' then some (c.toNat - 48)
  else if 'a' ≤ c && c ≤ 'f' then some (c.toNat - 87)
  else if 'A' ≤ c && c ≤ 'F' then some (c.toNat - 55)
  else none

/-- JSON string body (after the opening quote): returns the decoded
characters and the input after the closing quote. -/
def parseStringBody : List Char → Option (List Char × List Char)
  | [] => none
  | c :: rest =>
    if c = '"' then some ([], rest)
    else if c = '\\' then
      match rest with
      | [] => none
      | 'u' :: a :: b :: c2 :: d :: rest3 => do
        let ha ← hexVal? a
        let hb ← hexVal? b
        let hc ← hexVal? c2
        let hd ← hexVal? d
        let (tail, r) ← parseStringBody rest3
        pure (Char.ofNat (ha * 4096 + hb * 256 + hc * 16 + hd) :: tail, r)
      | e :: rest2 =>
        let decoded : Option Char :=
          if e = '"' then some '"'
          else if e = '\\' then some '\\'
          else if e = '/' then some '/'
          else if e = 'b' then some (Char.ofNat 8)
          else if e = 'f' then some (Char.ofNat 12)
          else if e = 'n' then some '\n'
          else if e = 'r' then some '\r'
          else if e = 't' then some '\t'
          else none
        match decoded with
        | none => none
        | some ch => do
          let (tail, r) ← parseStringBody rest2
          pure (ch :: tail, r)
    else if c.toNat < 32 then none
    else do
      let (tail, r) ← parseStringBody rest
      pure (c :: tail, r)

def digitsToNat (ds : List Char) : ℕ :=
  ds.foldl (fun acc c => 10 * acc + (c.toNat - 48)) 0

/-- JSON number literal; returns the exact value and the remaining input. -/
def parseJsonNumber (cs : List Char) : Option (JNum × List Char) :=
  let (neg, cs1) :=
    match cs with
    | '-' :: r => (true, r)
    | _ => (false, cs)
  match cs1 with
  | [] => none
  | c :: _ =>
    if ¬ c.isDigit then none
    else
      -- JSON ints: a leading 0 is the whole integer part
      let (intDs, r1) :=
        if c = '0' then (['0'], cs1.tail) else (cs1.takeWhile Char.isDigit, cs1.dropWhile Char.isDigit)
      let (fracDs, r2) :=
        match r1 with
        | '.' :: rf => (rf.takeWhile Char.isDigit, rf.dropWhile Char.isDigit)
        | _ => ([], r1)
      if (match r1 with | '.' :: _ => fracDs.isEmpty | _ => false) then none
      else
        let (expOk, expVal, r3) :=
          match r2 with
          | 'e' :: re =>
            let (esgn, re2) :=
              match re with
              | '+' :: rr => ((1 : ℤ), rr)
              | '-' :: rr => ((-1 : ℤ), rr)
              | _ => ((1 : ℤ), re)
            let eds := re2.takeWhile Char.isDigit
            (!eds.isEmpty, esgn * (digitsToNat eds : ℤ), re2.dropWhile Char.isDigit)
          | 'E' :: re =>
            let (esgn, re2) :=
              match re with
              | '+' :: rr => ((1 : ℤ), rr)
              | '-' :: rr => ((-1 : ℤ), rr)
              | _ => ((1 : ℤ), re)
            let eds := re2.takeWhile Char.isDigit
            (!eds.isEmpty, esgn * (digitsToNat eds : ℤ), re2.dropWhile Char.isDigit)
          | _ => (true, (0 : ℤ), r2)
        if !expOk then none
        else
          let base : JNum :=
            (jint (digitsToNat intDs)).add (jnorm (digitsToNat fracDs) (10 ^ fracDs.length))
          let v := (if neg then base.neg else base).mul (jpow10 expVal)
          some (v, r3)

mutual

/-- Fuelled JSON value recogniser (`JSON.parse` grammar). -/
def parseValueF : ℕ → List Char → Option (Json × List Char)
  | 0, _ => none
  | Nat.succ fuel, cs =>
    match skipWs cs with
    | [] => none
    | 'n' :: r =>
      match r with
      | 'u' :: 'l' :: 'l' :: r2 => some (.null, r2)
      | _ => none
    | 't' :: r =>
      match r with
      | 'r' :: 'u' :: 'e' :: r2 => some (.bool true, r2)
      | _ => none
    | 'f' :: r =>
      match r with
      | 'a' :: 'l' :: 's' :: 'e' :: r2 => some (.bool false, r2)
      | _ => none
    | '"' :: r => (parseStringBody r).map fun p => (.str (String.mk p.1), p.2)
    | '[' :: r => (parseElemsF fuel r).map fun p => (.arr p.1, p.2)
    | '{' :: r => (parseMembersF fuel r).map fun p => (.obj p.1, p.2)
    | c :: r => (parseJsonNumber (c :: r)).map fun p => (.num p.1, p.2)

/-- Elements of an array, entered right after `[`. -/
def parseElemsF : ℕ → List Char → Option (List Json × List Char)
  | 0, _ => none
  | Nat.succ fuel, cs =>
    match skipWs cs with
    | ']' :: r => some ([], r)
    | cs1 => do
      let (v, r) ← parseValueF fuel cs1
      let (vs, r2) ← parseMoreElemsF fuel r
      pure (v :: vs, r2)

/-- The `, value` continuations of an array. -/
def parseMoreElemsF : ℕ → List Char → Option (List Json × List Char)
  | 0, _ => none
  | Nat.succ fuel, cs =>
    match skipWs cs with
    | ']' :: r => some ([], r)
    | ',' :: r => do
      let (v, r2) ← parseValueF fuel r
      let (vs, r3) ← parseMoreElemsF fuel r2
      pure (v :: vs, r3)
    | _ => none

/-- Members of an object, entered right after the opening brace. -/
def parseMembersF : ℕ → List Char → Option (List (String × Json) × List Char)
  | 0, _ => none
  | Nat.succ fuel, cs =>
    match skipWs cs with
    | '}' :: r => some ([], r)
    | cs1 => do
      let (kv, r) ← parseMemberF fuel cs1
      let (kvs, r2) ← parseMoreMembersF fuel r
      pure (kv :: kvs, r2)

/-- One `"key": value` member. -/
def parseMemberF : ℕ → List Char → Option ((String × Json) × List Char)
  | 0, _ => none
  | Nat.succ fuel, cs =>
    match skipWs cs with
    | '"' :: r => do
      let (key, r2) ← parseStringBody r
      match skipWs r2 with
      | ':' :: r3 => do
        let (v, r4) ← parseValueF fuel r3
        pure ((String.mk key, v), r4)
      | _ => none
    | _ => none

/-- The `, member` continuations of an object. -/
def parseMoreMembersF : ℕ → List Char → Option (List (String × Json) × List Char)
  | 0, _ => none
  | Nat.succ fuel, cs =>
    match skipWs cs with
    | '}' :: r => some ([], r)
    | ',' :: r => do
      let (kv, r2) ← parseMemberF fuel r
      let (kvs, r3) ← parseMoreMembersF fuel r2
      pure (kv :: kvs, r3)
    | _ => none

end

/-- Model of `JSON.parse`: `none` models a thrown `SyntaxError`. -/
def jsonParse (s : String) : Option Json :=
  match parseValueF (2 * s.length + 8) s.data with
  | some (v, rest) => if skipWs rest = [] then some v else none
  | none => none

/-- Model of `Number(s)` on an already-trimmed string: `some q` for a finite value,
`none` for `NaN` and `±Infinity` (callers only test `Number.isInteger`,
which is false for both). -/
def jsToNumber (s : String) : Option JNum :=
  let cs := s.data
  match cs with
  | [] => some (jint 0)
  | _ =>
    let (neg, signed, cs1) :=
      match cs with
      | '+' :: r => (false, true, r)
      | '-' :: r => (true, true, r)
      | _ => (false, false, cs)
    if cs1 = "Infinity".data then none
    else
      match cs1 with
      | '0' :: 'x' :: ds => if !signed && ds ≠ [] && ds.all (fun c => (hexVal? c).isSome)
          then some (jint (ds.foldl (fun acc c => 16 * acc + ((hexVal? c).getD 0) : ℕ → Char → ℕ) 0 : ℕ))
          else none
      | '0' :: 'X' :: ds => if !signed && ds ≠ [] && ds.all (fun c => (hexVal? c).isSome)
          then some (jint (ds.foldl (fun acc c => 16 * acc + ((hexVal? c).getD 0) : ℕ → Char → ℕ) 0 : ℕ))
          else none
      | '0' :: 'o' :: ds => if !signed && ds ≠ [] && ds.all (fun c => '0' ≤ c && c ≤ '7')
          then some (jint (ds.foldl (fun acc c => 8 * acc + (c.toNat - 48) : ℕ → Char → ℕ) 0 : ℕ))
          else none
      | '0' :: 'b' :: ds => if !signed && ds ≠ [] && ds.all (fun c => c = '0' || c = '1')
          then some (jint (ds.foldl (fun acc c => 2 * acc + (c.toNat - 48) : ℕ → Char → ℕ) 0 : ℕ))
          else none
      | _ =>
        let (intDs, r1) := (cs1.takeWhile Char.isDigit, cs1.dropWhile Char.isDigit)
        let (fracDs, r2) :=
          match r1 with
          | '.' :: rf => (rf.takeWhile Char.isDigit, rf.dropWhile Char.isDigit)
          | _ => ([], r1)
        if intDs.isEmpty && fracDs.isEmpty then none
        else
          let (expOk, expVal, r3) :=
            match r2 with
            | 'e' :: re =>
              let (esgn, re2) :=
                match re with
                | '+' :: rr => ((1 : ℤ), rr)
                | '-' :: rr => ((-1 : ℤ), rr)
                | _ => ((1 : ℤ), re)
              let eds := re2.takeWhile Char.isDigit
              (!eds.isEmpty, esgn * (digitsToNat eds : ℤ), re2.dropWhile Char.isDigit)
            | 'E' :: re =>
              let (esgn, re2) :=
                match re with
                | '+' :: rr => ((1 : ℤ), rr)
                | '-' :: rr => ((-1 : ℤ), rr)
                | _ => ((1 : ℤ), re)
              let eds := re2.takeWhile Char.isDigit
              (!eds.isEmpty, esgn * (digitsToNat eds : ℤ), re2.dropWhile Char.isDigit)
            | _ => (true, (0 : ℤ), r2)
          if !expOk || r3 ≠ [] then none
          else
            let base : JNum :=
              (jint (digitsToNat intDs)).add (jnorm (digitsToNat fracDs) (10 ^ fracDs.length))
            some ((if neg then base.neg else base).mul (jpow10 expVal))

/-- Model of `Number.isInteger(Number(line))` for a trimmed line, the chunk-length
header test of the decoder. -/
def jsIsIntegerStr (s : String) : Bool :=
  match jsToNumber s with
  | some q => q.isInt
  | none => false

/-- Model of `Number.parseInt(s, 10)`. -/
def jsParseInt (s : String) : Option ℤ :=
  let cs := s.data.dropWhile isJsWs
  let (neg, cs1) :=
    match cs with
    | '+' :: r => (false, r)
    | '-' :: r => (true, r)
    | _ => (false, cs)
  let ds := cs1.takeWhile Char.isDigit
  if ds.isEmpty then none
  else some ((if neg then -1 else 1) * (digitsToNat ds : ℤ))

/-! ## Error taxonomy (`errors.ts`) -/

/-- Fields of the `RPCError` class family. -/
structure ErrData where
  message : String
  methodId : Option String
  rawResponse : Option String
  rpcCode : Option (String ⊕ JNum)
  foundIds : List String
deriving DecidableEq

/-- The `RPCError` constructor's option normalisation: `rawResponse` is
dropped when falsy and otherwise stored sliced to 500 characters. -/
def mkErrData (message : String) (methodId : Option String)
    (rawResponse : Option String) (rpcCode : Option (String ⊕ JNum))
    (foundIds : List String) : ErrData :=
  ⟨message, methodId,
    match rawResponse with
    | some s => if s = "" then none else some (jsSlice s 500)
    | none => none,
    rpcCode, foundIds⟩

/-- A thrown value: the error classes the modelled code constructs, plus
plain `Error` (`jsError`). -/
inductive Thrown where
  | rpcError (d : ErrData)
  | rateLimitError (d : ErrData) (retryAfter : Option ℤ)
  | serverError (d : ErrData) (statusCode : Option ℕ)
  | clientError (d : ErrData) (statusCode : Option ℕ)
  | authError (d : ErrData) (recoverable : Bool)
  | networkError (message : String) (methodId : Option String)
  | rpcTimeoutError (message : String) (timeoutSeconds : Option JNum)
  | jsError (message : String)
deriving DecidableEq

instance {α β : Type} [DecidableEq α] [DecidableEq β] : DecidableEq (Except α β) :=
  fun a b =>
    match a, b with
    | .ok x, .ok y =>
      if h : x = y then .isTrue (h ▸ rfl)
      else .isFalse fun he => h (by cases he; rfl)
    | .error x, .error y =>
      if h : x = y then .isTrue (h ▸ rfl)
      else .isFalse fun he => h (by cases he; rfl)
    | .ok _, .error _ => .isFalse fun he => Except.noConfusion he
    | .error _, .ok _ => .isFalse fun he => Except.noConfusion he

def Thrown.message : Thrown → String
  | .rpcError d => d.message
  | .rateLimitError d _ => d.message
  | .serverError d _ => d.message
  | .clientError d _ => d.message
  | .authError d _ => d.message
  | .networkError m _ => m
  | .rpcTimeoutError m _ => m
  | .jsError m => m

/-- Model of `instanceof RPCError` (every subclass included). -/
def Thrown.isRPCErrorClass : Thrown → Bool
  | .rpcError _ => true
  | .rateLimitError _ _ => true
  | .serverError _ _ => true
  | .clientError _ _ => true
  | .authError _ _ => true
  | .networkError _ _ => false
  | .rpcTimeoutError _ _ => false
  | .jsError _ => false

def AUTH_ERROR_PATTERNS : List String :=
  ["authentication", "expired", "unauthorized", "login", "re-authenticate"]

/-- Model of `isAuthError` from the client core.  The source's later
`instanceof ClientError` branch is unreachable because `ClientError`
extends `RPCError` and is caught by the first branch. -/
def isAuthError (t : Thrown) : Bool :=
  if t.isRPCErrorClass then
    AUTH_ERROR_PATTERNS.any fun p => jsIncludes (jsToLower t.message) p
  else false

/-- Model of `getErrorMessageForCode` restricted to `typeof code === 'number'`
(the only way the decoder reaches it). -/
def getErrorMessageForCode (code : JNum) : String × Bool :=
  if code = jint 400 then ("Invalid request parameters. Check your input and try again.", false)
  else if code = jint 401 then ("Authentication required. Re-authenticate and retry.", false)
  else if code = jint 403 then ("Insufficient permissions for this operation.", false)
  else if code = jint 404 then ("Requested resource not found.", false)
  else if code = jint 429 then ("API rate limit exceeded. Please wait before retrying.", true)
  else if code = jint 500 then
    ("Server error occurred. This is usually temporary - try again later.", true)
  else if JNum.leB (jint 400) code && JNum.ltB code (jint 500) then
    ("Client error " ++ qToJsStr code ++ ". Check your request parameters.", false)
  else if JNum.leB (jint 500) code && JNum.ltB code (jint 600) then
    ("Server error " ++ qToJsStr code ++ ". This is usually temporary - try again later.", true)
  else ("Error code: " ++ qToJsStr code, false)

/-! ## JS `String(value)` conversion (used for non-numeric error codes) -/

mutual

def jsDisplay : Json → String
  | .null => "null"
  | .bool b => if b then "true" else "false"
  | .num q => qToJsStr q
  | .str s => s
  | .arr xs => jsDisplayList xs
  | .obj _ => "[object Object]"

/-- Model of `Array.prototype.toString`: elements joined by `,`, nulls as empty. -/
def jsDisplayList : List Json → String
  | [] => ""
  | [x] => jsDisplayElem x
  | x :: y :: rest => jsDisplayElem x ++ "," ++ jsDisplayList (y :: rest)

def jsDisplayElem : Json → String
  | .null => ""
  | v => jsDisplay v

end

/-! ## Wire decoder (`src/notebooklm/rpc/decoder.ts`) -/

/-- Model of `stripAntiXssi`: drop the `)]}'` guard plus one line break. -/
def stripAntiXssi (s : String) : String :=
  match s.data with
  | ')' :: ']' :: '}' :: '\'' :: '\n' :: rest => String.mk rest
  | ')' :: ']' :: '}' :: '\'' :: '\r' :: '\n' :: rest => String.mk rest
  | _ => s

/-- Model of `String.prototype.split('\n')` (split on a single newline character;
kernel-computable replacement for `String.splitOn`). -/
def splitNewlineAux : List Char → List Char → List String
  | [], acc => [String.mk acc.reverse]
  | c :: rest, acc =>
    if c = '\n' then String.mk acc.reverse :: splitNewlineAux rest []
    else splitNewlineAux rest (c :: acc)

def splitNewline (s : String) : List String :=
  splitNewlineAux s.data []

/-- The line scan of `parseChunkedResponse`: parsed chunks plus the count
of lines whose `JSON.parse` failed (header lines consume the following
raw line). -/
def parseLinesAux : List String → List Json × ℕ
  | [] => ([], 0)
  | l :: rest =>
    let t := jsTrim l
    if t = "" then parseLinesAux rest
    else if jsIsIntegerStr t then
      match rest with
      | [] => ([], 0)
      | j :: rest2 =>
        match jsonParse j with
        | some v => (v :: (parseLinesAux rest2).1, (parseLinesAux rest2).2)
        | none => ((parseLinesAux rest2).1, (parseLinesAux rest2).2 + 1)
    else
      match jsonParse t with
      | some v => (v :: (parseLinesAux rest).1, (parseLinesAux rest).2)
      | none => ((parseLinesAux rest).1, (parseLinesAux rest).2 + 1)

/-- Model of `parseChunkedResponse`: returns the parsed chunks, or throws when more
than 10% of the lines were malformed. -/
def parseChunkedResponse (response : String) : Except Thrown (List Json) :=
  if jsTrim response = "" then .ok []
  else if (parseLinesAux (splitNewline (jsTrim response))).2 > 0 &&
      (parseLinesAux (splitNewline (jsTrim response))).2 * 10 >
        (splitNewline (jsTrim response)).length then
    .error (.rpcError (mkErrData
      ("Response parsing failed: " ++
        toString (parseLinesAux (splitNewline (jsTrim response))).2 ++ " of " ++
        toString (splitNewline (jsTrim response)).length ++
        " chunks malformed. This may indicate API changes or data corruption.")
      none (some (jsSlice response 500)) none []))
  else .ok (parseLinesAux (splitNewline (jsTrim response))).1

/-- The `items` view a chunk gets in `collectRpcIds` / `extractRpcResult`:
an array whose first element is an array is iterated, any other array is a
single item, and non-arrays are skipped. -/
def itemsOf (chunk : Json) : List Json :=
  match chunk with
  | .arr [] => [.arr []]
  | .arr (x :: rest) =>
    match x with
    | .arr _ => x :: rest
    | _ => [.arr (x :: rest)]
  | _ => []

/-- The id collected from one item (`length ≥ 2`, recognised tag, string id). -/
def collectedId (item : Json) : Option String :=
  match item with
  | .arr (k :: i :: _) =>
    if k = .str "wrb.fr" || k = .str "er" then
      match i with
      | .str id => some id
      | _ => none
    else none
  | _ => none

/-- Model of `collectRpcIds`. -/
def collectRpcIds (chunks : List Json) : List String :=
  (chunks.flatMap itemsOf).filterMap collectedId

mutual

/-- Model of `containsUserDisplayableError`. -/
def containsUDE : Json → Bool
  | .str s => jsIncludes s "UserDisplayableError"
  | .arr xs => containsUDEList xs
  | .obj fs => containsUDEFields fs
  | _ => false

def containsUDEList : List Json → Bool
  | [] => false
  | x :: rest => containsUDE x || containsUDEList rest

def containsUDEFields : List (String × Json) → Bool
  | [] => false
  | (_, v) :: rest => containsUDE v || containsUDEFields rest

end

/-- Message chosen for an `er`-tagged match from its error code. -/
def erMessage (code : Json) : String :=
  match code with
  | .num q => (getErrorMessageForCode q).1
  | .null => "Unknown error"
  | other => jsDisplay other

/-- The `rpcCode` stored for an `er`-tagged match (strings and numbers only). -/
def erStoredCode (code : Json) : Option (String ⊕ JNum) :=
  match code with
  | .str s => some (Sum.inl s)
  | .num q => some (Sum.inr q)
  | _ => none

/-- What one item contributes to `extractRpcResult`: `none` means the loop
continues, `some` is an early return or throw. -/
def extractItem (rpcId : String) (item : Json) : Option (Except Thrown Json) :=
  match item with
  | .arr (k :: i :: v :: rest) =>
    if k = .str "er" && i = .str rpcId then
      some (.error (.rpcError (mkErrData (erMessage v) (some rpcId) none (erStoredCode v) [])))
    else if k = .str "wrb.fr" && i = .str rpcId then
      -- item[5] is rest[2]; `resultData === null && item.length > 5 && item[5] !== null`
      if v = .null &&
          (match rest.get? 2 with
           | some x => x ≠ .null && containsUDE x
           | none => false) then
        some (.error (.rateLimitError
          (mkErrData "API rate limit or quota exceeded. Please wait before retrying."
            (some rpcId) none (some (Sum.inl "USER_DISPLAYABLE_ERROR")) [])
          none))
      else
        match v with
        | .str s =>
          match jsonParse s with
          | some parsed => some (.ok parsed)
          | none => some (.ok (.str s))
        | other => some (.ok other)
    else none
  | _ => none

/-- Model of `extractRpcResult`: first matching item wins; no match returns `null`. -/
def extractRpcResult (chunks : List Json) (rpcId : String) : Except Thrown Json :=
  match (chunks.flatMap itemsOf).findSome? (extractItem rpcId) with
  | some r => r
  | none => .ok .null

/-- The catch-block in `decodeResponse` that back-fills `foundIds` and
`rawResponse` on `RPCError`-family values. -/
def patchData (d : ErrData) (foundIds : List String) (preview : String) : ErrData :=
  ⟨d.message, d.methodId,
    match d.rawResponse with
    | none => some preview
    | some s => if s = "" then some preview else some s,
    d.rpcCode,
    if d.foundIds = [] then foundIds else d.foundIds⟩

def Thrown.patched (t : Thrown) (foundIds : List String) (preview : String) : Thrown :=
  match t with
  | .rpcError d => .rpcError (patchData d foundIds preview)
  | .rateLimitError d ra => .rateLimitError (patchData d foundIds preview) ra
  | .serverError d sc => .serverError (patchData d foundIds preview) sc
  | .clientError d sc => .clientError (patchData d foundIds preview) sc
  | .authError d r => .authError (patchData d foundIds preview) r
  | other => other

/-- The mismatch error of `decodeResponse` (other ids found, requested id
absent). -/
def mismatchError (rpcId : String) (foundIds : List String) (preview : String) : Thrown :=
  .rpcError (mkErrData
    ("No result found for RPC ID '" ++ rpcId ++ "'. Response contains IDs: " ++
      Json.stringify (.arr (foundIds.map .str)) ++ ". The RPC method ID may have changed.")
    (some rpcId) (some preview) none foundIds)

/-- The generic not-found error of `decodeResponse`. -/
def notFoundError (rpcId : String) (preview : String) : Thrown :=
  .rpcError (mkErrData ("No result found for RPC ID: " ++ rpcId)
    (some rpcId) (some preview) none [])

/-- Model of `decodeResponse`. -/
def decodeResponse (rawResponse : String) (rpcId : String) (allowNull : Bool) :
    Except Thrown Json :=
  let cleaned := stripAntiXssi rawResponse
  match parseChunkedResponse cleaned with
  | .error e => .error e
  | .ok chunks =>
    let responsePreview := if cleaned.length > 500 then jsSlice cleaned 500 else cleaned
    let foundIds := collectRpcIds chunks
    match extractRpcResult chunks rpcId with
    | .error e => .error (e.patched foundIds responsePreview)
    | .ok result =>
      if result = .null && !allowNull then
        if foundIds.length > 0 && !foundIds.contains rpcId then
          .error (mismatchError rpcId foundIds responsePreview)
        else
          .error (notFoundError rpcId responsePreview)
      else .ok result

/-! ## Wire encoder (`rpc/encoder.ts`) -/

/-- Model of `encodeRpcRequest`: `[[[rpc_id, json_params, null, "generic"]]]`. -/
def encodeRpcRequest (method : String) (params : List Json) : Json :=
  let paramsJson := Json.stringify (.arr params)
  let inner : Json := .arr [.str method, .str paramsJson, .null, .str "generic"]
  .arr [.arr [inner]]

/-- Model of `buildRequestBody`: `f.req=<enc>[&at=<enc>]&` (a falsy CSRF token is
omitted). -/
def buildRequestBody (rpcRequest : Json) (csrfToken : Option String) : String :=
  let fReq := Json.stringify rpcRequest
  "f.req=" ++ encodeURIComponent fReq ++
    (match csrfToken with
     | some c => if c = "" then "" else "&at=" ++ encodeURIComponent c
     | none => "") ++ "&"

/-! ## Transport (`ClientCore.rpcCall`, sequential model)

One logical call against a script of HTTP exchanges: `responses k` is what
the `k`-th HTTP request does.  The client is taken as open (`openState`);
the usage-error guard is outside every claim. -/

structure HttpResp where
  status : ℕ
  statusText : String
  retryAfterHeader : Option String
  body : String
deriving DecidableEq

inductive ReqOutcome where
  | threw (e : Thrown)
  | resp (r : HttpResp)

structure CallEnv where
  responses : ℕ → ReqOutcome
  /-- Field `refreshCallback`: absent, or present and succeeding iff the Bool. -/
  refresh : Option Bool

/-- Model of `response.ok`. -/
def httpOk (status : ℕ) : Bool :=
  200 ≤ status && status ≤ 299

def Thrown.className : Thrown → String
  | .rpcError _ => "RPCError"
  | .rateLimitError _ _ => "RateLimitError"
  | .serverError _ _ => "ServerError"
  | .clientError _ _ => "ClientError"
  | .authError _ _ => "AuthError"
  | .networkError _ _ => "NetworkError"
  | .rpcTimeoutError _ _ => "RPCTimeoutError"
  | .jsError _ => "Error"

/-- Model of `instanceof AuthError`. -/
def Thrown.isAuthErrorClass : Thrown → Bool
  | .authError _ _ => true
  | _ => false

def httpStatusMessage (m : String) (r : HttpResp) : String :=
  "HTTP " ++ toString r.status ++ " calling " ++ m ++ ": " ++ r.statusText

/-- The `retry-after` handling: `parseInt` of a truthy header, then the
`retryAfter && Number.isFinite(retryAfter)` test (`NaN` and `0` are falsy). -/
def capturedRetryAfter (header : Option String) : Option ℤ :=
  match header with
  | none => none
  | some h =>
    if h = "" then none
    else
      match jsParseInt h with
      | some n => if n = 0 then none else some n
      | none => none

/-- The status-mapping block of `rpcCall` for `!response.ok` (after any
401/403 refresh interception has declined). -/
def mapHttpFailure (m : String) (r : HttpResp) : Thrown :=
  if r.status = 429 then
    let captured := capturedRetryAfter r.retryAfterHeader
    let msg := "API rate limit exceeded calling " ++ m ++
      (match captured with
       | some n => ". Retry after " ++ toString n ++ " seconds"
       | none => "")
    .rateLimitError (mkErrData msg (some m) none none []) captured
  else if 500 ≤ r.status ∧ r.status < 600 then
    .serverError
      (mkErrData ("Server error " ++ toString r.status ++ " calling " ++ m ++ ": " ++ r.statusText)
        (some m) none none [])
      (some r.status)
  else if 400 ≤ r.status ∧ r.status < 500 ∧ r.status ≠ 401 ∧ r.status ≠ 403 then
    .clientError
      (mkErrData ("Client error " ++ toString r.status ++ " calling " ++ m ++ ": " ++ r.statusText)
        (some m) none none [])
      (some r.status)
  else
    .rpcError (mkErrData (httpStatusMessage m r) (some m) none none [])

/-- The wrapper for non-`RPCError` decode failures. -/
def wrapDecodeFailure (m : String) (e : Thrown) : Thrown :=
  .rpcError (mkErrData
    ("Failed to decode response for " ++ m ++ ": " ++ e.className ++ ": " ++ e.message)
    (some m) none none [])

/-- Model of `rpcCall` with `isRetry = true`: every refresh interception is skipped. -/
def rpcCallRetry (env : CallEnv) (m : String) (allowNull : Bool) (k : ℕ) :
    Except Thrown Json :=
  match env.responses k with
  | .threw e => .error e
  | .resp r =>
    if !httpOk r.status then .error (mapHttpFailure m r)
    else
      match decodeResponse r.body m allowNull with
      | .ok v => .ok v
      | .error e =>
        if e.isRPCErrorClass then .error e else .error (wrapDecodeFailure m e)

/-- Model of `tryRefreshAndRetry` for the single caller of the sequential model.
Returns the number of refresh-callback invocations with the outcome;
`.ok Json.null` doubles for the `return null` of a missing callback (the
caller treats both identically). -/
def tryRefreshAndRetry (env : CallEnv) (m : String) (allowNull : Bool) (k : ℕ)
    (originalError : Thrown) : ℕ × Except Thrown Json :=
  match env.refresh with
  | none => (0, .ok .null)
  | some refreshOk =>
    if refreshOk then (1, rpcCallRetry env m allowNull (k + 1))
    else (1, .error originalError)

/-- A refresh interception's result: a non-null value returns, everything
else falls through to `fallbackError` (which is what the interrupted
branch would have thrown). -/
def resumeInterception (fallbackError : Thrown) :
    ℕ × Except Thrown Json → ℕ × Except Thrown Json
  | (c, .ok v) => if v = .null then (c, .error fallbackError) else (c, .ok v)
  | (c, .error e) => (c, .error e)

/-- Model of `rpcCall` entry (`isRetry = false`), paired with the number of refresh
invocations it caused. -/
def rpcCall (env : CallEnv) (m : String) (allowNull : Bool) (k : ℕ) :
    ℕ × Except Thrown Json :=
  match env.responses k with
  | .threw e =>
    if env.refresh.isSome && isAuthError e then
      resumeInterception e (tryRefreshAndRetry env m allowNull k e)
    else (0, .error e)
  | .resp r =>
    if !httpOk r.status then
      let mapped := mapHttpFailure m r
      if env.refresh.isSome && (r.status = 401 || r.status = 403) then
        resumeInterception mapped (tryRefreshAndRetry env m allowNull k
          (.rpcError (mkErrData (httpStatusMessage m r) (some m) none none [])))
      else (0, .error mapped)
    else
      match decodeResponse r.body m allowNull with
      | .ok v => (0, .ok v)
      | .error e =>
        let fallback := if e.isRPCErrorClass then e else wrapDecodeFailure m e
        if env.refresh.isSome && isAuthError e then
          resumeInterception fallback (tryRefreshAndRetry env m allowNull k e)
        else (0, .error fallback)

/-- The refresh-interception condition of one attempt (`isAuthError` on a
thrown value, raw 401/403 on an HTTP failure, `isAuthError` on a decode
failure). -/
def attemptAuthFails (env : CallEnv) (m : String) (allowNull : Bool) (k : ℕ) : Bool :=
  match env.responses k with
  | .threw e => isAuthError e
  | .resp r =>
    if !httpOk r.status then r.status = 401 || r.status = 403
    else
      match decodeResponse r.body m allowNull with
      | .ok _ => false
      | .error e => isAuthError e

/-! ## Conversation cache (`ClientCore.cacheConversationTurn`) -/

structure CachedTurn where
  query : String
  answer : String
  turnNumber : JNum
deriving DecidableEq

/-- The `Map` as an insertion-ordered association list. -/
abbrev ConvCache := List (String × List CachedTurn)

def MAX_CONVERSATION_CACHE_SIZE : ℕ := 100

def hasKey (m : ConvCache) (id : String) : Bool :=
  m.any fun e => e.1 = id

/-- The eviction loop: while at capacity, delete the oldest key — except
that a falsy (empty-string) oldest key hits the `break`. -/
def evictLoop (m : ConvCache) : ConvCache :=
  if MAX_CONVERSATION_CACHE_SIZE ≤ m.length then
    match m with
    | [] => []
    | (k, v) :: rest => if k = "" then (k, v) :: rest else evictLoop rest
  else m

/-- Model of `turns.push(...)` on the entry for `id` (no-op when absent, mirroring
the dead `if (!turns) return`). -/
def appendTurn (m : ConvCache) (id : String) (t : CachedTurn) : ConvCache :=
  m.map fun e => if e.1 = id then (e.1, e.2 ++ [t]) else e

def cacheConversationTurn (m : ConvCache) (id q a : String) (tn : JNum) : ConvCache :=
  let isNew := !hasKey m id
  let m1 := if isNew then evictLoop m ++ [(id, [])] else m
  appendTurn m1 id ⟨q, a, tn⟩

def getCachedConversation (m : ConvCache) (id : String) : List CachedTurn :=
  match m.find? (fun e => e.1 = id) with
  | some e => e.2
  | none => []

/-- A sequence of `record_turn` operations. -/
def runRecords (ops : List (String × String × String × JNum)) : ConvCache :=
  ops.foldl (fun m op => cacheConversationTurn m op.1 op.2.1 op.2.2.1 op.2.2.2) []

/-! ## Completion poller (`waitForCompletion`, `index.ts`)

Simulated clock in milliseconds: each status check costs `pollMs`, a sleep
advances by its duration, computation is free.  Parameters are in seconds
exactly as in the source. -/

structure GenStatus where
  taskId : String
  status : String
deriving DecidableEq

def GenStatus.isComplete (s : GenStatus) : Bool := s.status = "completed"

def GenStatus.isFailed (s : GenStatus) : Bool := s.status = "failed"

/-- The polling loop body; `fuel` bounds the iterations (`none` = still
running). -/
def waitLoop (check : ℕ → String) (taskId : String) (maxInterval timeout pollMs : JNum) :
    ℕ → ℕ → JNum → JNum → Option (Except Thrown GenStatus)
  | 0, _, _, _ => none
  | fuel + 1, n, now, cur =>
    let now1 := now.add pollMs
    let st : GenStatus := ⟨taskId, check n⟩
    if st.isComplete || st.isFailed then some (.ok st)
    else
      let elapsed := now1.mul ⟨1, 1000⟩
      if JNum.ltB timeout elapsed then
        some (.error (.jsError
          ("Task " ++ taskId ++ " timed out after " ++ qToJsStr timeout ++ "s")))
      else
        let remaining := timeout.sub elapsed
        let sleepDuration := JNum.minJ cur remaining
        let now2 :=
          if JNum.ltB (jint 0) sleepDuration then
            now1.add (jint (max 1 ((sleepDuration.mul (jint 1000)).floor)))
          else now1
        waitLoop check taskId maxInterval timeout pollMs fuel (n + 1) now2
          (JNum.minJ (cur.mul (jint 2)) maxInterval)

def waitForCompletion (check : ℕ → String) (taskId : String)
    (initialInterval maxInterval timeout pollMs : JNum) (fuel : ℕ) :
    Option (Except Thrown GenStatus) :=
  waitLoop check taskId maxInterval timeout pollMs fuel 0 (jint 0) initialInterval

/-! ## Single-flight refresh coordinator (interleaving model)

`tryRefreshAndRetry` under cooperative concurrency.  The synchronous block
`if (!this.refreshTask) { this.refreshTask = ...; ...finally(clear) }`
contains no `await`, so it is one atomic step per caller (`enter`).  A
refresh task settling runs its `finally` (clearing the shared slot) before
any of its awaiters resume; awaiters resume individually afterwards
(`resume`).  Tasks are numbered so that handle identity is observable. -/

inductive RPhase where
  | entering
  | waiting (h : ℕ)
  | resumed (h : ℕ)
deriving DecidableEq

structure RState where
  /-- Field `this.refreshTask`. -/
  slot : Option ℕ
  /-- Next task id. -/
  nextId : ℕ
  /-- Number of invocations of the caller-supplied refresh callback. -/
  invoked : ℕ
  /-- Number of times the shared slot was cleared by a `finally`. -/
  cleared : ℕ
  /-- Unsettled task ids. -/
  pending : List ℕ
  /-- One phase per concurrent caller. -/
  callers : List RPhase
deriving DecidableEq

inductive REvent where
  | enter (i : ℕ)
  | settle (h : ℕ)
  | resume (i : ℕ)
deriving DecidableEq

/-- One interleaving step; `none` when the event is not enabled. -/
def rstep (s : RState) (e : REvent) : Option RState :=
  match e with
  | .enter i =>
    match s.callers.get? i with
    | some .entering =>
      match s.slot with
      | none =>
        some ⟨some s.nextId, s.nextId + 1, s.invoked + 1, s.cleared,
          s.pending ++ [s.nextId], s.callers.set i (.waiting s.nextId)⟩
      | some h =>
        some ⟨some h, s.nextId, s.invoked, s.cleared, s.pending,
          s.callers.set i (.waiting h)⟩
    | _ => none
  | .settle h =>
    if h ∈ s.pending then
      some ⟨none, s.nextId, s.invoked, s.cleared + 1, s.pending.erase h, s.callers⟩
    else none
  | .resume i =>
    match s.callers.get? i with
    | some (.waiting h) =>
      if h ∈ s.pending then none
      else some ⟨s.slot, s.nextId, s.invoked, s.cleared, s.pending,
        s.callers.set i (.resumed h)⟩
    | _ => none

def runTrace (s : RState) : List REvent → Option RState
  | [] => some s
  | e :: rest =>
    match rstep s e with
    | some s' => runTrace s' rest
    | none => none

/-- The `n` callers that have each just failed with an auth-classified error
(refresh callback present), no refresh in flight. -/
def rinit (n : ℕ) : RState :=
  ⟨none, 0, 0, 0, [], List.replicate n .entering⟩

/-- Predicate `enterOkFrom b tr`: no `enter` occurs once a `settle` has been seen
(`b` records whether one was already seen). -/
def enterOkFrom (b : Bool) : List REvent → Bool
  | [] => true
  | e :: rest =>
    match e with
    | .enter _ => !b && enterOkFrom b rest
    | .settle _ => enterOkFrom true rest
    | .resume _ => enterOkFrom b rest

/-- The concurrency hypothesis of the single-flight scenario: every caller
races into the refresh branch before the refresh settles (no `enter` after
a `settle`). -/
def noEnterAfterSettle (tr : List REvent) : Bool :=
  enterOkFrom false tr

def RPhase.isResumed : RPhase → Bool
  | .resumed _ => true
  | _ => false

/-! # Claim theorems -/

/-- The C7 scenario envelope. -/
def c7Inner : Json :=
  .arr [.str "abc123", .str "[\"x\",1]", .null, .str "generic"]

/-- C4 scenario: a parseable payload line. -/
def c4GoodLine : String := "[]"

/-- C4 scenario: a line that fails `JSON.parse`. -/
def c4BadLine : String := "x"

/-- C4 scenario: 20 lines, 1 malformed (5%). -/
def c4Body1 : String :=
  String.intercalate "\n" (List.replicate 19 c4GoodLine ++ [c4BadLine])

/-- C4 scenario: 20 lines, 3 malformed (15%). -/
def c4Body3 : String :=
  String.intercalate "\n"
    (List.replicate 17 c4GoodLine ++ [c4BadLine, c4BadLine, c4BadLine])

/-- The `responsePreview` computed inside `decodeResponse`. -/
def responsePreviewOf (raw : String) : String :=
  let cleaned := stripAntiXssi raw
  if cleaned.length > 500 then jsSlice cleaned 500 else cleaned

/-- What a matched success item returns for a given payload (the
`wrb.fr` arm of `extractRpcResult` after the rate-limit guard). -/
def payloadResult (v : Json) : Except Thrown Json :=
  match v with
  | .str s =>
    (match jsonParse s with
      | some parsed => .ok parsed
      | none => .ok (.str s))
  | other => .ok other

/-- A transport script that always yields the same HTTP response, with no
refresh callback configured. -/
def envNoRefresh (r : HttpResp) : CallEnv :=
  ⟨fun _ => .resp r, none⟩

/-- Witness for C2: two consecutive 401s with a succeeding refresh. -/
def envTwo401 : CallEnv :=
  ⟨fun _ => .resp ⟨401, "", none, ""⟩, some true⟩

/-- The cache invariant: no falsy keys and size within capacity. -/
def CacheInv (m : ConvCache) : Prop :=
  (∀ e ∈ m, e.1 ≠ "") ∧ m.length ≤ MAX_CONVERSATION_CACHE_SIZE

/-- C8 counterexample ops: an empty-string conversation id first, then
100 distinct ids. -/
def c8BadOps : List (String × String × String × JNum) :=
  ("", "q", "a", jint 1) :: (List.range 100).map (fun i => ("c" ++ toString i, "q", "a", jint 1))

/-- C8 scenario ops: 101 distinct non-empty conversation ids. -/
def c8GoodOps : List (String × String × String × JNum) :=
  (List.range 101).map (fun i => ("c" ++ toString i, "q", "a", jint 1))

/-- The cache after the 101-id scenario: ids 1–100, each with its turn. -/
def c8Expected : ConvCache :=
  (List.range 100).map (fun i => ("c" ++ toString (i + 1), [⟨"q", "a", jint 1⟩]))

/-- Whether an event is a settle. -/
def REvent.isSettle : REvent → Bool
  | .settle _ => true
  | _ => false

/-- Inductive invariant of the single-flight coordinator for one batch of
`n` concurrent callers; `b` records whether the (unique) refresh task has
settled. -/
def COneInv (n : ℕ) (s : RState) (b : Bool) : Prop :=
  s.callers.length = n ∧
  s.nextId = s.invoked ∧
  s.invoked ≤ 1 ∧
  (s.invoked = 0 →
    s.slot = none ∧ s.pending = [] ∧ s.cleared = 0 ∧ b = false ∧
    ∀ p ∈ s.callers, p = .entering) ∧
  (s.invoked = 1 → b = false →
    s.slot = some 0 ∧ s.pending = [0] ∧ s.cleared = 0 ∧
    ∀ p ∈ s.callers, p = .entering ∨ p = .waiting 0) ∧
  (s.invoked = 1 → b = true →
    s.slot = none ∧ s.pending = [] ∧ s.cleared = 1 ∧
    ∀ p ∈ s.callers, p = .entering ∨ p = .waiting 0 ∨ p = .resumed 0)

/-- The five-caller scenario trace from the spec: all five enter, the
single refresh settles, all five resume. -/
def c1Trace : List REvent :=
  [.enter 0, .enter 1, .enter 2, .enter 3, .enter 4, .settle 0,
    .resume 0, .resume 1, .resume 2, .resume 3, .resume 4]

/-- C7: encoding method `"abc123"` with params `["x", 1]` yields a body
`f.req=<url-encoded envelope>&` whose envelope JSON decodes to the inner
array `["abc123","[\"x\",1]",null,"generic"]` in the singly-nested outer
wrapping; in general, `encode` serializes the params to a string, wraps it
with the method id, a null placeholder and the fixed `"generic"` tag, and
form-encodes `f.req=<enc envelope>&at=<enc csrf>&` when a CSRF token is
present. -/
theorem encode_envelope_scenario_and_general :
    (buildRequestBody (encodeRpcRequest "abc123" [.str "x", .num (jint 1)]) none =
        "f.req=" ++ encodeURIComponent (Json.stringify (.arr [.arr [c7Inner]])) ++ "&" ∧
      jsonParse (Json.stringify (.arr [.arr [c7Inner]])) = some (.arr [.arr [c7Inner]])) ∧
    ∀ (m : String) (params : List Json) (csrf : String), csrf ≠ "" →
      buildRequestBody (encodeRpcRequest m params) (some csrf) =
        "f.req=" ++
          encodeURIComponent (Json.stringify (.arr [.arr [.arr
            [.str m, .str (Json.stringify (.arr params)), .null, .str "generic"]]])) ++
          "&at=" ++ encodeURIComponent csrf ++ "&" := by
  refine ⟨⟨rfl, rfl⟩, ?_⟩
  intro m params csrf h
  simp only [buildRequestBody, encodeRpcRequest, if_neg h, String.append_assoc]

/-- Witness for C7's general clause at a concrete call. -/
theorem encode_envelope_witness :
    buildRequestBody (encodeRpcRequest "m" [.num (jint 2)]) (some "tok") =
      "f.req=" ++
        encodeURIComponent (Json.stringify (.arr [.arr [.arr
          [.str "m", .str (Json.stringify (.arr [.num (jint 2)])), .null, .str "generic"]]])) ++
        "&at=" ++ encodeURIComponent "tok" ++ "&" :=
  encode_envelope_scenario_and_general.2 "m" [.num (jint 2)] "tok" (by decide)

/-- C4: a payload line failing `JSON.parse` increments the skip count
instead of aborting; the decode throws iff the skipped/total line ratio
exceeds 10%, and otherwise returns exactly the chunks that parsed; with 20
lines, 1 malformed line succeeds and 3 malformed lines throw the
classified decode error. -/
theorem corruption_tolerance :
    (∀ (l : String) (rest : List String), jsTrim l ≠ "" →
      jsIsIntegerStr (jsTrim l) = false → jsonParse (jsTrim l) = none →
      parseLinesAux (l :: rest) = ((parseLinesAux rest).1, (parseLinesAux rest).2 + 1)) ∧
    (∀ response : String, jsTrim response ≠ "" →
      ((∃ e, parseChunkedResponse response = .error e) ↔
        (splitNewline (jsTrim response)).length <
          10 * (parseLinesAux (splitNewline (jsTrim response))).2) ∧
      (¬ (splitNewline (jsTrim response)).length <
          10 * (parseLinesAux (splitNewline (jsTrim response))).2 →
        parseChunkedResponse response =
          .ok (parseLinesAux (splitNewline (jsTrim response))).1)) ∧
    parseChunkedResponse c4Body1 = .ok (List.replicate 19 (.arr [])) ∧
    parseChunkedResponse c4Body3 = .error (.rpcError (mkErrData
      ("Response parsing failed: 3 of 20 chunks malformed. " ++
        "This may indicate API changes or data corruption.")
      none (some c4Body3) none [])) := by
  refine ⟨?_, ?_, rfl, rfl⟩
  · intro l rest h1 h2 h3
    conv_lhs => unfold parseLinesAux
    rw [if_neg h1, if_neg (fun hh => by rw [h2] at hh; exact Bool.noConfusion hh), h3]
  · intro response h
    have hcond :
        ((parseLinesAux (splitNewline (jsTrim response))).2 > 0 &&
          (parseLinesAux (splitNewline (jsTrim response))).2 * 10 >
            (splitNewline (jsTrim response)).length) = true ↔
        (splitNewline (jsTrim response)).length <
          10 * (parseLinesAux (splitNewline (jsTrim response))).2 := by
      simp only [Bool.and_eq_true, decide_eq_true_eq]
      omega
    constructor
    · constructor
      · rintro ⟨e, he⟩
        by_cases hc : (splitNewline (jsTrim response)).length <
            10 * (parseLinesAux (splitNewline (jsTrim response))).2
        · exact hc
        · exfalso
          unfold parseChunkedResponse at he
          rw [if_neg h, if_neg (fun hh => hc (hcond.mp hh))] at he
          exact Except.noConfusion he
      · intro hc
        refine ⟨.rpcError (mkErrData
          ("Response parsing failed: " ++
            toString (parseLinesAux (splitNewline (jsTrim response))).2 ++ " of " ++
            toString (splitNewline (jsTrim response)).length ++
            " chunks malformed. This may indicate API changes or data corruption.")
          none (some (jsSlice response 500)) none []), ?_⟩
        unfold parseChunkedResponse
        rw [if_neg h, if_pos (hcond.mpr hc)]
    · intro hc
      unfold parseChunkedResponse
      rw [if_neg h, if_neg (fun hh => hc (hcond.mp hh))]

/-- An item that `extractRpcResult` matches is collected by
`collectRpcIds` under the requested id. -/
theorem collectedId_of_extractItem {rpcId : String} {item : Json}
    {r : Except Thrown Json} (h : extractItem rpcId item = some r) :
    collectedId item = some rpcId := by
  cases item with
  | null => simp [extractItem] at h
  | bool b => simp [extractItem] at h
  | num q => simp [extractItem] at h
  | str s => simp [extractItem] at h
  | obj fs => simp [extractItem] at h
  | arr xs =>
    match xs with
    | [] => simp [extractItem] at h
    | [_] => simp [extractItem] at h
    | [_, _] => simp [extractItem] at h
    | k :: i :: v :: rest =>
      simp only [extractItem] at h
      by_cases h1 : (decide (k = Json.str "er") && decide (i = Json.str rpcId)) = true
      · rcases Bool.and_eq_true _ _ ▸ h1 with ⟨hk, hi⟩
        rw [decide_eq_true_eq] at hk hi
        subst hk; subst hi
        simp [collectedId]
      · rw [if_neg h1] at h
        by_cases h2 : (decide (k = Json.str "wrb.fr") && decide (i = Json.str rpcId)) = true
        · rcases Bool.and_eq_true _ _ ▸ h2 with ⟨hk, hi⟩
          rw [decide_eq_true_eq] at hk hi
          subst hk; subst hi
          simp [collectedId]
        · rw [if_neg h2] at h
          exact Option.noConfusion h

/-- If the requested id is not among the collected ids, extraction falls
through and returns `null`. -/
theorem extractRpcResult_eq_null {chunks : List Json} {rpcId : String}
    (h : rpcId ∉ collectRpcIds chunks) : extractRpcResult chunks rpcId = .ok .null := by
  unfold extractRpcResult
  have hnone : (chunks.flatMap itemsOf).findSome? (extractItem rpcId) = none := by
    rw [List.findSome?_eq_none_iff]
    intro item hmem
    by_contra hne
    rcases Option.ne_none_iff_exists'.mp hne with ⟨r, hr⟩
    exact h (by
      unfold collectRpcIds
      exact List.mem_filterMap.mpr ⟨item, hmem, collectedId_of_extractItem hr⟩)
  rw [hnone]

/-- C3: when no success- or error-tagged item carries the requested method
id, `decodeResponse` raises the mismatch error listing the found ids if
other ids were found and `allow_null` is false, raises the generic
not-found error if nothing tagged was found, and returns `null` when
`allow_null` is true. -/
theorem decode_no_match_branches :
    ∀ (raw rpcId : String) (allowNull : Bool) (chunks : List Json),
      parseChunkedResponse (stripAntiXssi raw) = .ok chunks →
      rpcId ∉ collectRpcIds chunks →
      (collectRpcIds chunks ≠ [] → allowNull = false →
        decodeResponse raw rpcId allowNull =
          .error (mismatchError rpcId (collectRpcIds chunks) (responsePreviewOf raw))) ∧
      (collectRpcIds chunks = [] → allowNull = false →
        decodeResponse raw rpcId allowNull =
          .error (notFoundError rpcId (responsePreviewOf raw))) ∧
      (allowNull = true → decodeResponse raw rpcId allowNull = .ok .null) := by
  intro raw rpcId allowNull chunks hparse hnotin
  have hextract := extractRpcResult_eq_null hnotin
  have hcontains : (collectRpcIds chunks).contains rpcId = false := by
    by_contra hc
    exact hnotin (by simpa using List.mem_of_elem_eq_true (by simpa using hc))
  unfold decodeResponse
  simp only [hparse, hextract]
  refine ⟨?_, ?_, ?_⟩
  · intro hne hfalse
    subst hfalse
    rw [if_pos (by simp), if_pos ?_]
    · rfl
    · simp only [hcontains, Bool.not_false, Bool.and_true, decide_eq_true_eq]
      exact List.length_pos.mpr hne
  · intro hnil hfalse
    subst hfalse
    rw [if_pos (by simp), if_neg ?_]
    · rfl
    · simp [hnil]
  · intro htrue
    subst htrue
    rw [if_neg (by simp)]

/-- Witness for C3 at a concrete mismatching response. -/
theorem decode_no_match_witness :
    decodeResponse "[[\"wrb.fr\",\"zz\",1]]" "m1" false =
      .error (mismatchError "m1" ["zz"] "[[\"wrb.fr\",\"zz\",1]]") :=
  (decode_no_match_branches "[[\"wrb.fr\",\"zz\",1]]" "m1" false
      [.arr [.arr [.str "wrb.fr", .str "zz", .num (jint 1)]]] rfl (by decide)).1
    (by decide) rfl

/-- C10: a success-tagged item matching the requested id whose payload is
`null` makes extraction return `null`, so `decodeResponse` with
`allow_null = false` raises the generic not-found error — identical to the
error for an absent id. -/
theorem decode_matched_null_payload :
    ∀ (raw rpcId : String) (chunks : List Json),
      parseChunkedResponse (stripAntiXssi raw) = .ok chunks →
      (chunks.flatMap itemsOf).findSome? (extractItem rpcId) = some (.ok .null) →
      decodeResponse raw rpcId false =
        .error (notFoundError rpcId (responsePreviewOf raw)) := by
  intro raw rpcId chunks hparse hfound
  have hmem : rpcId ∈ collectRpcIds chunks := by
    rcases List.exists_of_findSome?_eq_some hfound with ⟨item, hmem, hitem⟩
    exact List.mem_filterMap.mpr ⟨item, hmem, collectedId_of_extractItem hitem⟩
  have hextract : extractRpcResult chunks rpcId = .ok .null := by
    unfold extractRpcResult
    rw [hfound]
  unfold decodeResponse
  simp only [hparse, hextract]
  have hcontains : (collectRpcIds chunks).contains rpcId = true := by
    simpa using hmem
  rw [if_pos (by simp), if_neg ?_]
  · rfl
  · intro hcond
    rcases Bool.and_eq_true _ _ ▸ hcond with ⟨_, hc2⟩
    rw [hcontains] at hc2
    exact Bool.noConfusion hc2

/-- Witness for C10 at a concrete null-payload response. -/
theorem decode_matched_null_witness :
    decodeResponse "[[\"wrb.fr\",\"m1\",null]]" "m1" false =
      .error (notFoundError "m1" "[[\"wrb.fr\",\"m1\",null]]") :=
  decode_matched_null_payload "[[\"wrb.fr\",\"m1\",null]]" "m1"
    [.arr [.arr [.str "wrb.fr", .str "m1", .null]]] rfl rfl

/-- C6 counterexample: a success payload that is the JSON string
`"null"` parses one level further to `null`, but `decodeResponse` with
`allow_null = false` raises the generic not-found error instead of
returning the parsed value. -/
theorem success_payload_counterexample :
    jsonParse "null" = some .null ∧
    decodeResponse "[[\"wrb.fr\",\"m1\",\"null\"]]" "m1" false =
      .error (notFoundError "m1" "[[\"wrb.fr\",\"m1\",\"null\"]]") :=
  ⟨rfl, rfl⟩

/-- C6 (amended): for a response whose item stream contains a
success-tagged item for the requested id with a non-null payload, after
any number of non-matching items for other ids: a string payload that
parses as JSON is returned parsed one level further (unless the parsed
value is `null` and `allow_null` is false, in which case the generic
not-found error is raised); a string payload that fails to parse is
returned unchanged; a non-string payload is returned as-is. -/
theorem success_payload_decoding :
    ∀ (raw rpcId : String) (allowNull : Bool) (chunks : List Json)
      (pre post : List Json) (v : Json) (rest : List Json),
      parseChunkedResponse (stripAntiXssi raw) = .ok chunks →
      chunks.flatMap itemsOf =
        pre ++ (.arr (.str "wrb.fr" :: .str rpcId :: v :: rest)) :: post →
      (∀ x ∈ pre, extractItem rpcId x = none) →
      v ≠ .null →
      (∀ s w, v = .str s → jsonParse s = some w → (w ≠ .null ∨ allowNull = true) →
        decodeResponse raw rpcId allowNull = .ok w) ∧
      (∀ s, v = .str s → jsonParse s = some .null → allowNull = false →
        decodeResponse raw rpcId allowNull =
          .error (notFoundError rpcId (responsePreviewOf raw))) ∧
      (∀ s, v = .str s → jsonParse s = none →
        decodeResponse raw rpcId allowNull = .ok (.str s)) ∧
      ((∀ s, v ≠ .str s) → decodeResponse raw rpcId allowNull = .ok v) := by
  intro raw rpcId allowNull chunks pre post v rest hparse hdecomp hpre hvnull
  have hextr : extractItem rpcId (.arr (.str "wrb.fr" :: .str rpcId :: v :: rest)) =
      some (payloadResult v) := by
    simp only [extractItem]
    rw [if_neg (by simp), if_pos (by simp), if_neg ?_]
    · cases v with
      | str s =>
        simp only [payloadResult]
        cases hj : jsonParse s <;> simp [hj]
      | null => rfl
      | bool b => rfl
      | num q => rfl
      | arr xs => rfl
      | obj fs => rfl
    · intro hc
      have hv := (Bool.and_eq_true _ _ ▸ hc).1
      rw [decide_eq_true_eq] at hv
      exact hvnull hv
  have hmemItem : (.arr (.str "wrb.fr" :: .str rpcId :: v :: rest)) ∈ chunks.flatMap itemsOf := by
    rw [hdecomp]
    exact List.mem_append_right _ (List.mem_cons_self _ _)
  have hfound : rpcId ∈ collectRpcIds chunks :=
    List.mem_filterMap.mpr ⟨_, hmemItem, by simp [collectedId]⟩
  have hcontains : (collectRpcIds chunks).contains rpcId = true := by
    simpa using hfound
  have hres : extractRpcResult chunks rpcId = payloadResult v := by
    unfold extractRpcResult
    rw [hdecomp, List.findSome?_append, List.findSome?_eq_none_iff.mpr hpre,
      List.findSome?_cons, hextr]
    rfl
  refine ⟨?_, ?_, ?_, ?_⟩
  · intro s w hv hj hok
    subst hv
    rw [show payloadResult (.str s) = .ok w from by simp [payloadResult, hj]] at hres
    unfold decodeResponse
    simp only [hparse, hres]
    rw [if_neg ?_]
    intro hc
    rcases Bool.and_eq_true _ _ ▸ hc with ⟨hc1, hc2⟩
    rw [decide_eq_true_eq] at hc1
    rcases hok with hw | ha
    · exact hw hc1
    · rw [ha] at hc2
      exact Bool.noConfusion hc2
  · intro s hv hj hfalse
    subst hv
    subst hfalse
    rw [show payloadResult (.str s) = .ok .null from by simp [payloadResult, hj]] at hres
    unfold decodeResponse
    simp only [hparse, hres]
    rw [if_pos (by simp), if_neg ?_]
    · rfl
    · intro hcond
      rcases Bool.and_eq_true _ _ ▸ hcond with ⟨_, hc2⟩
      rw [hcontains] at hc2
      exact Bool.noConfusion hc2
  · intro s hv hj
    subst hv
    rw [show payloadResult (.str s) = .ok (.str s) from by simp [payloadResult, hj]] at hres
    unfold decodeResponse
    simp only [hparse, hres]
    rw [if_neg (by simp)]
  · intro hnstr
    have hresv : extractRpcResult chunks rpcId = .ok v := by
      rw [hres]
      cases v with
      | str s => exact absurd rfl (hnstr s)
      | null => rfl
      | bool b => rfl
      | num q => rfl
      | arr xs => rfl
      | obj fs => rfl
    unfold decodeResponse
    simp only [hparse, hresv]
    rw [if_neg ?_]
    intro hc
    have hv := (Bool.and_eq_true _ _ ▸ hc).1
    rw [decide_eq_true_eq] at hv
    exact hvnull hv

/-- Witness for C6's amended clause at a concrete double-encoded payload. -/
theorem success_payload_witness :
    decodeResponse "[[\"wrb.fr\",\"m1\",\"[\\\"deep\\\",2]\"]]" "m1" false =
      .ok (.arr [.str "deep", .num (jint 2)]) :=
  (success_payload_decoding "[[\"wrb.fr\",\"m1\",\"[\\\"deep\\\",2]\"]]" "m1" false
      [.arr [.arr [.str "wrb.fr", .str "m1", .str "[\"deep\",2]"]]]
      [] [] (.str "[\"deep\",2]") [] rfl rfl (by intro x hx; cases hx) (by decide)).1
    "[\"deep\",2]" (.arr [.str "deep", .num (jint 2)]) rfl rfl (Or.inl (by decide))

/-- Witness for C4's universal clauses at a concrete malformed line. -/
theorem corruption_tolerance_witness :
    parseLinesAux ["x", "[]"] = ((parseLinesAux ["[]"]).1, (parseLinesAux ["[]"]).2 + 1) :=
  corruption_tolerance.1 "x" ["[]"] (by decide) (by decide) rfl

/-- C5 counterexample: a 401 with no refresh interception is thrown as a
plain `RPCError` — not the `AuthError` class, and (with an empty reason
phrase) not even auth-classified — and a numeric `retry-after: 0` header
is not captured by the rate-limit error. -/
theorem http_status_counterexample :
    (rpcCall (envNoRefresh ⟨401, "", none, ""⟩) "m1" false 0 =
        (0, .error (.rpcError (mkErrData "HTTP 401 calling m1: " (some "m1") none none []))) ∧
      Thrown.isAuthErrorClass
        (.rpcError (mkErrData "HTTP 401 calling m1: " (some "m1") none none [])) = false ∧
      isAuthError
        (.rpcError (mkErrData "HTTP 401 calling m1: " (some "m1") none none [])) = false) ∧
    rpcCall (envNoRefresh ⟨429, "", some "0", ""⟩) "m1" false 0 =
      (0, .error (.rateLimitError
        (mkErrData "API rate limit exceeded calling m1" (some "m1") none none []) none)) :=
  ⟨⟨rfl, rfl, rfl⟩, rfl⟩

/-- C5 (amended): on HTTP status ≥ 400 the transport maps 429 to a
RateLimitError capturing `retry-after` exactly when the header parses to a
nonzero integer, 5xx to a retryable ServerError carrying the status, 4xx
other than 401/403/429 to a non-retryable ClientError carrying the status,
and 401/403 — when no refresh callback is configured, or on the
already-retried call — to a generic RPCError whose message embeds the
status (not the AuthError class). -/
theorem http_status_mapping :
    ∀ (env : CallEnv) (m : String) (allowNull : Bool) (k : ℕ) (r : HttpResp),
      env.responses k = .resp r → 400 ≤ r.status →
      (r.status = 429 →
        rpcCall env m allowNull k = (0, .error (.rateLimitError
          (mkErrData ("API rate limit exceeded calling " ++ m ++
            (match capturedRetryAfter r.retryAfterHeader with
             | some n => ". Retry after " ++ toString n ++ " seconds"
             | none => "")) (some m) none none [])
          (capturedRetryAfter r.retryAfterHeader)))) ∧
      (500 ≤ r.status → r.status < 600 →
        rpcCall env m allowNull k = (0, .error (.serverError
          (mkErrData ("Server error " ++ toString r.status ++ " calling " ++ m ++ ": " ++
            r.statusText) (some m) none none [])
          (some r.status)))) ∧
      (r.status < 500 → r.status ≠ 401 → r.status ≠ 403 → r.status ≠ 429 →
        rpcCall env m allowNull k = (0, .error (.clientError
          (mkErrData ("Client error " ++ toString r.status ++ " calling " ++ m ++ ": " ++
            r.statusText) (some m) none none [])
          (some r.status)))) ∧
      (r.status = 401 ∨ r.status = 403 →
        (env.refresh = none →
          rpcCall env m allowNull k =
            (0, .error (.rpcError (mkErrData (httpStatusMessage m r) (some m) none none [])))) ∧
        rpcCallRetry env m allowNull k =
          .error (.rpcError (mkErrData (httpStatusMessage m r) (some m) none none []))) := by
  intro env m allowNull k r hresp hge
  have hnotok : httpOk r.status = false := by
    simp only [httpOk, Bool.and_eq_false_iff, decide_eq_false_iff_not]
    omega
  refine ⟨?_, ?_, ?_, ?_⟩
  · intro h429
    unfold rpcCall
    rw [hresp]
    simp only [hnotok, Bool.not_false, if_true]
    rw [if_neg (by simp [h429]), mapHttpFailure, if_pos h429]
  · intro h5 h6
    unfold rpcCall
    rw [hresp]
    simp only [hnotok, Bool.not_false, if_true]
    rw [if_neg (by simp; omega), mapHttpFailure, if_neg (by omega), if_pos (by omega)]
  · intro hlt h401 h403 h429
    unfold rpcCall
    rw [hresp]
    simp only [hnotok, Bool.not_false, if_true]
    rw [if_neg (by simp [h401, h403]), mapHttpFailure, if_neg h429, if_neg (by omega),
      if_pos (by omega)]
  · intro hauth
    constructor
    · intro hnone
      unfold rpcCall
      rw [hresp]
      simp only [hnotok, Bool.not_false, if_true]
      rw [if_neg (by simp [hnone]), mapHttpFailure, if_neg (by omega), if_neg (by omega),
        if_neg (by omega)]
    · unfold rpcCallRetry
      rw [hresp]
      simp only [hnotok, Bool.not_false, if_true]
      rw [mapHttpFailure, if_neg (by omega), if_neg (by omega), if_neg (by omega)]

/-- Witness for C5 at a concrete 500 response. -/
theorem http_status_mapping_witness :
    rpcCall (envNoRefresh ⟨500, "oops", none, ""⟩) "m1" false 0 =
      (0, .error (.serverError
        (mkErrData "Server error 500 calling m1: oops" (some "m1") none none [])
        (some 500))) :=
  ((http_status_mapping (envNoRefresh ⟨500, "oops", none, ""⟩) "m1" false 0
      ⟨500, "oops", none, ""⟩ rfl (by decide)).2.1 (by decide) (by decide))

/-- An auth-failing attempt, replayed with the retry flag set, always
throws. -/
theorem rpcCallRetry_error_of_authFails :
    ∀ (env : CallEnv) (m : String) (allowNull : Bool) (k : ℕ),
      attemptAuthFails env m allowNull k = true →
      ∃ e, rpcCallRetry env m allowNull k = .error e := by
  intro env m allowNull k h
  unfold attemptAuthFails at h
  unfold rpcCallRetry
  cases hr : env.responses k with
  | threw e => simp only [hr]; exact ⟨e, rfl⟩
  | resp r =>
    simp only [hr] at h ⊢
    by_cases hok : httpOk r.status = true
    · simp only [hok, Bool.not_true, Bool.false_eq_true, if_false] at h ⊢
      cases hd : decodeResponse r.body m allowNull with
      | ok v => rw [hd] at h; exact Bool.noConfusion h
      | error e =>
        simp only [hd]
        by_cases hc : e.isRPCErrorClass = true
        · exact ⟨e, by rw [if_pos hc]⟩
        · exact ⟨wrapDecodeFailure m e, by rw [if_neg hc]⟩
    · have hok' : httpOk r.status = false := by
        cases hh : httpOk r.status
        · rfl
        · exact absurd hh hok
      simp only [hok', Bool.not_false, if_true]
      exact ⟨mapHttpFailure m r, rfl⟩

/-- C2: when the first attempt fails auth-classified, the refresh runs
exactly once and the retried call's second auth-classified failure
propagates to the caller unchanged; no second refresh is started. -/
theorem bounded_retry :
    ∀ (env : CallEnv) (m : String) (allowNull : Bool) (k : ℕ),
      env.refresh = some true →
      attemptAuthFails env m allowNull k = true →
      attemptAuthFails env m allowNull (k + 1) = true →
      ∃ e, rpcCallRetry env m allowNull (k + 1) = .error e ∧
        rpcCall env m allowNull k = (1, .error e) := by
  intro env m allowNull k hrefresh hfail1 hfail2
  obtain ⟨e2, he2⟩ := rpcCallRetry_error_of_authFails env m allowNull (k + 1) hfail2
  refine ⟨e2, he2, ?_⟩
  have hsome : env.refresh.isSome = true := by rw [hrefresh]; rfl
  have htry : ∀ orig, tryRefreshAndRetry env m allowNull k orig = (1, .error e2) := by
    intro orig
    unfold tryRefreshAndRetry
    simp only [hrefresh]
    rw [if_pos trivial, he2]
  unfold attemptAuthFails at hfail1
  unfold rpcCall
  cases hr : env.responses k with
  | threw e =>
    simp only [hr] at hfail1 ⊢
    rw [if_pos (by rw [hsome, hfail1]; rfl), htry]
    rfl
  | resp r =>
    simp only [hr] at hfail1 ⊢
    by_cases hok : httpOk r.status = true
    · simp only [hok, Bool.not_true, Bool.false_eq_true, if_false] at hfail1 ⊢
      cases hd : decodeResponse r.body m allowNull with
      | ok v => rw [hd] at hfail1; exact Bool.noConfusion hfail1
      | error e =>
        simp only [hd] at hfail1 ⊢
        rw [if_pos (by rw [hsome, hfail1]; rfl), htry]
        rfl
    · have hok' : httpOk r.status = false := by
        cases hh : httpOk r.status
        · rfl
        · exact absurd hh hok
      simp only [hok', Bool.not_false, if_true] at hfail1 ⊢
      rw [if_pos (by rw [hsome, hfail1]; rfl), htry]
      rfl

theorem bounded_retry_witness :
    ∃ e, rpcCallRetry envTwo401 "m1" false 1 = .error e ∧
      rpcCall envTwo401 "m1" false 0 = (1, .error e) :=
  bounded_retry envTwo401 "m1" false 0 rfl rfl rfl

/-- The `evictLoop` only ever drops oldest entries: its result is a suffix. -/
theorem evictLoop_suffix : ∀ m : ConvCache, evictLoop m <:+ m := by
  intro m
  induction m with
  | nil => rw [evictLoop.eq_def]; simp
  | cons e rest ih =>
    rw [evictLoop.eq_def]
    by_cases hc : MAX_CONVERSATION_CACHE_SIZE ≤ (e :: rest).length
    · rw [if_pos hc]
      rcases e with ⟨k, v⟩
      show (if k = "" then (k, v) :: rest else evictLoop rest) <:+ (k, v) :: rest
      by_cases hk : k = ""
      · rw [if_pos hk]
      · rw [if_neg hk]
        exact ih.trans (List.suffix_cons _ _)
    · rw [if_neg hc]

/-- Below capacity the eviction loop is a no-op. -/
theorem evictLoop_of_lt {m : ConvCache} (h : m.length < MAX_CONVERSATION_CACHE_SIZE) :
    evictLoop m = m := by
  rw [evictLoop.eq_def, if_neg (by omega)]

/-- At capacity, with no falsy key in front, exactly the oldest entry is
evicted. -/
theorem evictLoop_eq_tail {m : ConvCache} (h : m.length = MAX_CONVERSATION_CACHE_SIZE)
    (hk : ∀ e ∈ m, e.1 ≠ "") : evictLoop m = m.tail := by
  cases m with
  | nil => simp [MAX_CONVERSATION_CACHE_SIZE] at h
  | cons e rest =>
    rw [evictLoop.eq_def, if_pos (by omega)]
    rcases e with ⟨k, v⟩
    show (if k = "" then (k, v) :: rest else evictLoop rest) = rest
    rw [if_neg (hk (k, v) (List.mem_cons_self _ _))]
    exact evictLoop_of_lt (by simp at h; omega)

/-- The `appendTurn` never changes the key sequence. -/
theorem appendTurn_keys (m : ConvCache) (id : String) (t : CachedTurn) :
    (appendTurn m id t).map Prod.fst = m.map Prod.fst := by
  unfold appendTurn
  rw [List.map_map]
  apply List.map_congr_left
  intro e _
  by_cases he : e.1 = id
  · simp [he]
  · simp [he]

theorem appendTurn_length (m : ConvCache) (id : String) (t : CachedTurn) :
    (appendTurn m id t).length = m.length := by
  unfold appendTurn
  exact List.length_map _ _

/-- Keys stay non-falsy across `appendTurn`. -/
theorem appendTurn_keys_ne {m : ConvCache} {id : String} {t : CachedTurn}
    (h : ∀ e ∈ m, e.1 ≠ "") : ∀ e ∈ appendTurn m id t, e.1 ≠ "" := by
  intro e he
  have hmem : e.1 ∈ (appendTurn m id t).map Prod.fst := List.mem_map_of_mem _ he
  rw [appendTurn_keys] at hmem
  rcases List.mem_map.mp hmem with ⟨e', he', heq⟩
  rw [← heq]
  exact h e' he'

theorem cacheInv_step {m : ConvCache} {id q a : String} {tn : JNum}
    (hinv : CacheInv m) (hid : id ≠ "") : CacheInv (cacheConversationTurn m id q a tn) := by
  obtain ⟨hkeys, hlen⟩ := hinv
  unfold cacheConversationTurn
  by_cases hk : hasKey m id = true
  · simp only [hk, Bool.not_true, Bool.false_eq_true, if_false]
    exact ⟨appendTurn_keys_ne hkeys, by rw [appendTurn_length]; exact hlen⟩
  · have hk' : (!hasKey m id) = true := by
      cases hh : hasKey m id
      · rfl
      · exact absurd hh hk
    simp only [hk', if_true]
    have hsub : ∀ e ∈ evictLoop m, e.1 ≠ "" :=
      fun e he => hkeys e ((evictLoop_suffix m).subset he)
    have hkeys' : ∀ e ∈ evictLoop m ++ [(id, ([] : List CachedTurn))], e.1 ≠ "" := by
      intro e he
      rcases List.mem_append.mp he with hin | hin
      · exact hsub e hin
      · simp at hin
        rw [hin]
        exact hid
    have hlen' : (evictLoop m ++ [(id, ([] : List CachedTurn))]).length ≤
        MAX_CONVERSATION_CACHE_SIZE := by
      by_cases hfull : m.length = MAX_CONVERSATION_CACHE_SIZE
      · rw [evictLoop_eq_tail hfull hkeys]
        cases m with
        | nil => simp [MAX_CONVERSATION_CACHE_SIZE] at hfull
        | cons e rest =>
          simp at hfull ⊢
          omega
      · rw [evictLoop_of_lt (by omega)]
        simp
        omega
    exact ⟨appendTurn_keys_ne hkeys', by rw [appendTurn_length]; exact hlen'⟩

/-- Appending a turn to an entry list placed at the back. -/
theorem appendTurn_back {xs : ConvCache} {cid : String} (t : CachedTurn)
    (hxs : ∀ e ∈ xs, e.1 ≠ cid) :
    appendTurn (xs ++ [(cid, [])]) cid t = xs ++ [(cid, [t])] := by
  unfold appendTurn
  rw [List.map_append]
  congr 1
  · have hcongr : ∀ e ∈ xs,
        (if e.1 = cid then (e.1, e.2 ++ [t]) else e) = (fun e => e) e :=
      fun e he => by rw [if_neg (hxs e he)]
    rw [List.map_congr_left hcongr, List.map_id']
  · simp

/-- C8 counterexample: with an empty-string id as the oldest key, the
eviction loop's falsy-key `break` lets the cache grow to 101 entries. -/
theorem cache_capacity_counterexample :
    (runRecords c8BadOps).length = 101 ∧
      MAX_CONVERSATION_CACHE_SIZE < (runRecords c8BadOps).length := by
  have h : (runRecords c8BadOps).length = 101 := rfl
  exact ⟨h, by rw [h]; decide⟩

/-- The fold of `runRecords` preserves the cache invariant. -/
theorem runRecords_inv :
    ∀ (ops : List (String × String × String × JNum)) (m : ConvCache),
      CacheInv m → (∀ op ∈ ops, op.1 ≠ "") →
      CacheInv (ops.foldl
        (fun m op => cacheConversationTurn m op.1 op.2.1 op.2.2.1 op.2.2.2) m) := by
  intro ops
  induction ops with
  | nil => exact fun m h _ => h
  | cons op rest ih =>
    intro m hm hops
    exact ih _ (cacheInv_step hm (hops op (List.mem_cons_self _ _)))
      (fun o ho => hops o (List.mem_cons_of_mem _ ho))

/-- C8 (amended): provided every recorded conversation id is non-empty,
the cache never exceeds its capacity of 100 keys; a new id recorded at
capacity evicts exactly the oldest key before inserting; appends to an
existing id never change the key sequence; and after 101 distinct ids the
first is unrecoverable while ids 2–101 remain retrievable. -/
theorem cache_bounded_eviction :
    (∀ ops : List (String × String × String × JNum),
      (∀ op ∈ ops, op.1 ≠ "") →
      (runRecords ops).length ≤ MAX_CONVERSATION_CACHE_SIZE) ∧
    (∀ (m : ConvCache) (cid q a : String) (tn : JNum),
      (∀ e ∈ m, e.1 ≠ "") → m.length = MAX_CONVERSATION_CACHE_SIZE →
      hasKey m cid = false →
      cacheConversationTurn m cid q a tn = m.tail ++ [(cid, [⟨q, a, tn⟩])]) ∧
    (∀ (m : ConvCache) (cid q a : String) (tn : JNum), hasKey m cid = true →
      (cacheConversationTurn m cid q a tn).map Prod.fst = m.map Prod.fst) ∧
    (getCachedConversation (runRecords c8GoodOps) "c0" = [] ∧
      ∀ i ∈ List.range 100,
        getCachedConversation (runRecords c8GoodOps) ("c" ++ toString (i + 1)) ≠ []) := by
  refine ⟨?_, ?_, ?_, ?_, ?_⟩
  · intro ops hops
    exact (runRecords_inv ops [] ⟨by simp, by simp [MAX_CONVERSATION_CACHE_SIZE]⟩ hops).2
  · intro m cid q a tn hkeys hfull hnew
    unfold cacheConversationTurn
    have hnew' : (!hasKey m cid) = true := by rw [hnew]; rfl
    simp only [hnew', if_true]
    rw [evictLoop_eq_tail hfull hkeys]
    apply appendTurn_back
    intro e he heq
    have hkm : hasKey m cid = true := by
      unfold hasKey
      rw [List.any_eq_true]
      exact ⟨e, (List.tail_sublist m).subset he, by rw [heq]; simp⟩
    rw [hnew] at hkm
    exact Bool.noConfusion hkm
  · intro m cid q a tn hk
    unfold cacheConversationTurn
    simp only [hk, Bool.not_true, Bool.false_eq_true, if_false]
    exact appendTurn_keys m cid _
  · rfl
  · have hrun : runRecords c8GoodOps = c8Expected := rfl
    intro i hi
    rw [hrun]
    revert i
    decide

/-- Witness for C8's universal clauses at a concrete existing-id append. -/
theorem cache_bounded_eviction_witness :
    (cacheConversationTurn [("k1", [])] "k1" "q" "a" (jint 1)).map Prod.fst =
      [("k1", ([] : List CachedTurn))].map Prod.fst :=
  cache_bounded_eviction.2.2.1 [("k1", [])] "k1" "q" "a" (jint 1) rfl

/-- C9 counterexample: a never-terminal check makes `waitForCompletion`
throw a plain `Error` (name `"Error"`, not the classified
`RPCTimeoutError`, and carrying no last-observed status field). -/
theorem poll_timeout_counterexample :
    waitForCompletion (fun _ => "pending") "t1" (jint 2) (jint 10) (jint 3) (jint 1000) 3 =
      some (.error (.jsError "Task t1 timed out after 3s")) ∧
    Thrown.className (.jsError "Task t1 timed out after 3s") = "Error" ∧
    Thrown.isRPCErrorClass (.jsError "Task t1 timed out after 3s") = false :=
  ⟨rfl, rfl, rfl⟩

/-- C9 (amended): a terminal (`completed`/`failed`) status from the first
check is returned immediately, and when the loop gives up after the
timeout is exceeded it throws the plain `Error` naming the task and the
timeout — not a classified timeout error and without the last observed
status. -/
theorem poll_loop_behavior :
    (∀ (check : ℕ → String) (taskId : String) (ii mi tmo pm : JNum) (fuel : ℕ),
      0 < fuel → (check 0 = "completed" ∨ check 0 = "failed") →
      waitForCompletion check taskId ii mi tmo pm fuel = some (.ok ⟨taskId, check 0⟩)) ∧
    (∀ (check : ℕ → String) (taskId : String) (mi tmo pm : JNum) (fuel n : ℕ)
        (now cur : JNum) (e : Thrown),
      waitLoop check taskId mi tmo pm fuel n now cur = some (.error e) →
      e = .jsError ("Task " ++ taskId ++ " timed out after " ++ qToJsStr tmo ++ "s")) := by
  constructor
  · intro check taskId ii mi tmo pm fuel hfuel hterm
    cases fuel with
    | zero => omega
    | succ f =>
      unfold waitForCompletion waitLoop
      rw [if_pos ?_]
      show (GenStatus.isComplete ⟨taskId, check 0⟩ || GenStatus.isFailed ⟨taskId, check 0⟩) = true
      rcases hterm with h | h <;>
        simp [GenStatus.isComplete, GenStatus.isFailed, h]
  · intro check taskId mi tmo pm fuel
    induction fuel with
    | zero =>
      intro n now cur e h
      exact Option.noConfusion h
    | succ f ih =>
      intro n now cur e h
      unfold waitLoop at h
      by_cases hterm : (GenStatus.isComplete ⟨taskId, check n⟩ ||
          GenStatus.isFailed ⟨taskId, check n⟩) = true
      · rw [if_pos hterm] at h
        rcases Option.some.inj h with h2
        exact Except.noConfusion h2
      · rw [if_neg hterm] at h
        by_cases hto : JNum.ltB tmo ((now.add pm).mul ⟨1, 1000⟩) = true
        · rw [if_pos hto] at h
          rcases Option.some.inj h with h2
          exact (Except.error.inj h2).symm
        · rw [if_neg hto] at h
          exact ih _ _ _ _ h

/-- Witness for C9's amended clauses at a concrete completed check. -/
theorem poll_loop_witness :
    waitForCompletion (fun _ => "completed") "t2" (jint 2) (jint 10) (jint 300) (jint 1000) 1 =
      some (.ok ⟨"t2", "completed"⟩) :=
  poll_loop_behavior.1 (fun _ => "completed") "t2" (jint 2) (jint 10) (jint 300) (jint 1000) 1
    (by decide) (Or.inl rfl)

/-- One interleaving step preserves the single-flight invariant, provided
no caller enters after the refresh task has settled. -/
theorem cOneInv_step {n : ℕ} {s s' : RState} {e : REvent} {b : Bool}
    (hinv : COneInv n s b) (hstep : rstep s e = some s')
    (hflag : ∀ i, e = .enter i → b = false) :
    COneInv n s' (b || e.isSettle) := by
  obtain ⟨hlen, hnext, hle, h0, h1f, h1t⟩ := hinv
  cases e with
  | enter i =>
    have hb : b = false := hflag i rfl
    subst hb
    unfold rstep at hstep
    cases hget : s.callers.get? i with
    | none =>
      simp only [hget] at hstep
      exact Option.noConfusion hstep
    | some p =>
      cases p with
      | waiting h =>
        simp only [hget] at hstep
        exact Option.noConfusion hstep
      | resumed h =>
        simp only [hget] at hstep
        exact Option.noConfusion hstep
      | entering =>
        cases hslot : s.slot with
        | none =>
          simp only [hget, hslot] at hstep
          rcases Option.some.inj hstep with rfl
          rcases Nat.le_one_iff_eq_zero_or_eq_one.mp hle with hc | hc
          · obtain ⟨_, hpend, hclr, _, hcall⟩ := h0 hc
            unfold COneInv
            dsimp only [REvent.isSettle]
            refine ⟨by simpa using hlen, by rw [hnext], by omega, ?_, ?_, ?_⟩
            · intro hcontra
              omega
            · intro _ _
              refine ⟨by rw [hnext, hc], ?_, by rw [hclr], ?_⟩
              · rw [hpend, hnext, hc]
                rfl
              · intro p hp
                rcases List.mem_or_eq_of_mem_set hp with hin | rfl
                · exact Or.inl (hcall p hin)
                · exact Or.inr (by rw [hnext, hc])
            · intro _ hcontra
              exact Bool.noConfusion hcontra
          · obtain ⟨hslot', _, _, _⟩ := h1f hc rfl
            rw [hslot] at hslot'
            exact Option.noConfusion hslot'
        | some hdl =>
          simp only [hget, hslot] at hstep
          rcases Option.some.inj hstep with rfl
          have hinv1 : s.invoked = 1 := by
            rcases Nat.le_one_iff_eq_zero_or_eq_one.mp hle with hc | hc
            · obtain ⟨hslot', _, _, _, _⟩ := h0 hc
              rw [hslot] at hslot'
              exact Option.noConfusion hslot'
            · exact hc
          obtain ⟨hslot', hpend, hclr, hcall⟩ := h1f hinv1 rfl
          rw [hslot] at hslot'
          rcases Option.some.inj hslot' with rfl
          unfold COneInv
          dsimp only [REvent.isSettle]
          refine ⟨by simpa using hlen, hnext, hle, ?_, ?_, ?_⟩
          · intro hcontra
            omega
          · intro _ _
            refine ⟨rfl, hpend, hclr, ?_⟩
            intro p hp
            rcases List.mem_or_eq_of_mem_set hp with hin | rfl
            · exact hcall p hin
            · exact Or.inr rfl
          · intro _ hcontra
            exact Bool.noConfusion hcontra
  | settle hdl =>
    simp only [rstep] at hstep
    by_cases hmem : hdl ∈ s.pending
    · rw [if_pos hmem] at hstep
      rcases Option.some.inj hstep with rfl
      have hinv1 : s.invoked = 1 := by
        rcases Nat.le_one_iff_eq_zero_or_eq_one.mp hle with hc | hc
        · obtain ⟨_, hpend, _, _, _⟩ := h0 hc
          rw [hpend] at hmem
          exact absurd hmem (List.not_mem_nil _)
        · exact hc
      have hbf : b = false := by
        cases hb : b
        · rfl
        · obtain ⟨_, hpend, _, _⟩ := h1t hinv1 hb
          rw [hpend] at hmem
          exact absurd hmem (List.not_mem_nil _)
      subst hbf
      obtain ⟨hslot, hpend, hclr, hcall⟩ := h1f hinv1 rfl
      unfold COneInv
      dsimp only [REvent.isSettle]
      refine ⟨hlen, hnext, hle, ?_, ?_, ?_⟩
      · intro hcontra
        omega
      · intro _ hcontra
        exact Bool.noConfusion hcontra
      · intro _ _
        refine ⟨rfl, ?_, by rw [hclr], ?_⟩
        · have hdl0 : hdl = 0 := by
            rw [hpend] at hmem
            simpa using hmem
          rw [hpend, hdl0]
          rfl
        · intro p hp
          rcases hcall p hp with hc | hc
          · exact Or.inl hc
          · exact Or.inr (Or.inl hc)
    · rw [if_neg hmem] at hstep
      exact Option.noConfusion hstep
  | resume i =>
    unfold rstep at hstep
    cases hget : s.callers.get? i with
    | none =>
      simp only [hget] at hstep
      exact Option.noConfusion hstep
    | some p =>
      cases p with
      | entering =>
        simp only [hget] at hstep
        exact Option.noConfusion hstep
      | resumed h =>
        simp only [hget] at hstep
        exact Option.noConfusion hstep
      | waiting hdl =>
        simp only [hget] at hstep
        by_cases hmem : hdl ∈ s.pending
        · rw [if_pos hmem] at hstep
          exact Option.noConfusion hstep
        · rw [if_neg hmem] at hstep
          rcases Option.some.inj hstep with rfl
          have hpmem : RPhase.waiting hdl ∈ s.callers := List.get?_mem hget
          have hinv1 : s.invoked = 1 := by
            rcases Nat.le_one_iff_eq_zero_or_eq_one.mp hle with hc | hc
            · obtain ⟨_, _, _, _, hcall⟩ := h0 hc
              exact absurd (hcall _ hpmem) (fun hh => RPhase.noConfusion hh)
            · exact hc
          have hbt : b = true := by
            cases hb : b
            · obtain ⟨_, hpend, _, hcall⟩ := h1f hinv1 hb
              rcases hcall _ hpmem with hc | hc
              · exact RPhase.noConfusion hc
              · rcases RPhase.waiting.inj hc with rfl
                rw [hpend] at hmem
                exact absurd (List.mem_singleton_self _) hmem
            · rfl
          subst hbt
          obtain ⟨hslot, hpend, hclr, hcall⟩ := h1t hinv1 rfl
          have hdl0 : hdl = 0 := by
            rcases hcall _ hpmem with hc | hc | hc
            · exact RPhase.noConfusion hc
            · exact RPhase.waiting.inj hc
            · exact RPhase.noConfusion hc
          unfold COneInv
          dsimp only [REvent.isSettle]
          refine ⟨by simpa using hlen, hnext, hle, ?_, ?_, ?_⟩
          · intro hcontra
            omega
          · intro _ hcontra
            exact Bool.noConfusion hcontra
          · intro _ _
            refine ⟨hslot, hpend, hclr, ?_⟩
            intro p hp
            rcases List.mem_or_eq_of_mem_set hp with hin | rfl
            · exact hcall p hin
            · exact Or.inr (Or.inr (by rw [hdl0]))

/-- The invariant holds along every trace respecting the concurrency
hypothesis. -/
theorem runTrace_inv :
    ∀ (tr : List REvent) (n : ℕ) (s : RState) (b : Bool) (s' : RState),
      COneInv n s b → enterOkFrom b tr = true → runTrace s tr = some s' →
      ∃ b', COneInv n s' b' := by
  intro tr
  induction tr with
  | nil =>
    intro n s b s' hinv _ hrun
    rcases Option.some.inj hrun with rfl
    exact ⟨b, hinv⟩
  | cons e rest ih =>
    intro n s b s' hinv hok hrun
    unfold runTrace at hrun
    cases hstep : rstep s e with
    | none =>
      simp only [hstep] at hrun
      exact Option.noConfusion hrun
    | some s1 =>
      simp only [hstep] at hrun
      cases e with
      | enter i =>
        simp only [enterOkFrom, Bool.and_eq_true] at hok
        have hbf : b = false := by
          cases hbc : b
          · rfl
          · rw [hbc] at hok
            exact absurd hok.1 (by simp)
        have hinv1 := cOneInv_step hinv hstep (fun _ _ => hbf)
        rw [show (b || (REvent.enter i).isSettle) = b from by
          simp [REvent.isSettle]] at hinv1
        exact ih n s1 b s' hinv1 hok.2 hrun
      | settle h =>
        simp only [enterOkFrom] at hok
        have hinv1 := cOneInv_step hinv hstep (fun _ hh => REvent.noConfusion hh)
        rw [show (b || (REvent.settle h).isSettle) = true from by
          simp [REvent.isSettle]] at hinv1
        exact ih n s1 true s' hinv1 hok hrun
      | resume i =>
        simp only [enterOkFrom] at hok
        have hinv1 := cOneInv_step hinv hstep (fun _ hh => REvent.noConfusion hh)
        rw [show (b || (REvent.resume i).isSettle) = b from by
          simp [REvent.isSettle]] at hinv1
        exact ih n s1 b s' hinv1 hok hrun

/-- C1: in every interleaving in which all `n` concurrent auth-failing
callers reach the refresh branch before the refresh settles, and every
caller eventually resumes, the refresh callback was invoked exactly once,
the shared slot was cleared exactly once, and every caller resumed from
the same shared pending handle. -/
theorem single_flight_refresh :
    ∀ (n : ℕ) (tr : List REvent) (s' : RState),
      0 < n →
      runTrace (rinit n) tr = some s' →
      noEnterAfterSettle tr = true →
      (∀ p ∈ s'.callers, p.isResumed = true) →
      s'.invoked = 1 ∧ s'.cleared = 1 ∧ ∀ p ∈ s'.callers, p = .resumed 0 := by
  intro n tr s' hn hrun hok hres
  have hinit : COneInv n (rinit n) false := by
    refine ⟨by simp [rinit], rfl, by simp [rinit], ?_, ?_, ?_⟩
    · intro _
      exact ⟨rfl, rfl, rfl, rfl, fun p hp => List.eq_of_mem_replicate hp⟩
    · intro h
      simp [rinit] at h
    · intro h
      simp [rinit] at h
  obtain ⟨b', hinv⟩ := runTrace_inv tr n (rinit n) false s' hinit hok hrun
  obtain ⟨hlen, hnext, hle, h0, h1f, h1t⟩ := hinv
  have hne : s'.callers ≠ [] := by
    intro hnil
    rw [hnil] at hlen
    simp at hlen
    omega
  rcases List.exists_mem_of_ne_nil s'.callers hne with ⟨p0, hp0⟩
  rcases Nat.le_one_iff_eq_zero_or_eq_one.mp hle with hc | hc
  · obtain ⟨_, _, _, _, hcall⟩ := h0 hc
    have h2 := hres p0 hp0
    rw [hcall p0 hp0] at h2
    exact absurd h2 (by simp [RPhase.isResumed])
  · cases hb : b' with
    | false =>
      rw [hb] at h1f
      obtain ⟨_, _, _, hcall⟩ := h1f hc rfl
      exfalso
      have h2 := hres p0 hp0
      rcases hcall p0 hp0 with h1 | h1 <;>
        (rw [h1] at h2; exact absurd h2 (by simp [RPhase.isResumed]))
    | true =>
      rw [hb] at h1t
      obtain ⟨_, _, hclr, hcall⟩ := h1t hc rfl
      refine ⟨hc, hclr, ?_⟩
      intro p hp
      rcases hcall p hp with h1 | h1 | h1
      · have h2 := hres p hp
        rw [h1] at h2
        exact absurd h2 (by simp [RPhase.isResumed])
      · have h2 := hres p hp
        rw [h1] at h2
        exact absurd h2 (by simp [RPhase.isResumed])
      · exact h1

/-- Witness for C1 at the concrete five-caller interleaving. -/
theorem single_flight_witness :
    runTrace (rinit 5) c1Trace =
      some ⟨none, 1, 1, 1, [], List.replicate 5 (.resumed 0)⟩ ∧
    (⟨none, 1, 1, 1, [], List.replicate 5 (.resumed 0)⟩ : RState).invoked = 1 ∧
    (⟨none, 1, 1, 1, [], List.replicate 5 (.resumed 0)⟩ : RState).cleared = 1 ∧
    ∀ p ∈ (⟨none, 1, 1, 1, [], List.replicate 5 (.resumed 0)⟩ : RState).callers,
      p = RPhase.resumed 0 := by
  refine ⟨rfl, ?_⟩
  have h := single_flight_refresh 5 c1Trace
    ⟨none, 1, 1, 1, [], List.replicate 5 (.resumed 0)⟩
    (by decide) rfl (by decide) (by decide)
  exact h

end TenXChat
